import Mathlib

/-!
Verification of the mini-crossword grid generator.

A shallow embedding of `scripts/generate_puzzle.py` (the grid-filling
constraint solver of the daily-mini-crossword repository) together with
proofs about its claimed properties.

Modelling conventions:
* Python strings holding words are modelled as `List Char`.
* The 5×5 grid is modelled as a total function `Nat → Nat → Cell`;
  the program only ever touches coordinates `0 ≤ r, c < 5`.
* Python `set` objects are modelled as duplicate-free `List`s; the only
  operations the program performs on them are membership, `add`,
  `discard` and difference, all of which are order-insensitive.
* `time.time()` readings and `random.uniform(0, 2)` drawings are
  modelled as oracle streams `clock : Nat → ℚ` and `rand : Nat → ℚ`,
  consumed one value per call; the iteration order that `list(...)`
  imposes on a Python `set` is modelled by an oracle
  `enum : List Word → List Word`.
* `words_by_length` (a Python dict) is modelled as an association list.
-/

/-- Words are sequences of characters (Python `str`). -/
abbrev Word := List Char

/-- State of one grid cell: `None`, `"#"`, or a letter in the source. -/
inductive Cell where
  | empty : Cell
  | block : Cell
  | letter : Char → Cell
deriving DecidableEq, Repr, Inhabited

/-- Slot direction: `'across'` or `'down'` in the source. -/
inductive Direction where
  | across : Direction
  | down : Direction
deriving DecidableEq, Repr, Inhabited

/-- The `Slot` dataclass of the source: clue number, direction, cell
coordinates, length, and `(other_slot_idx, my_pos, their_pos)`
intersection triples. -/
structure Slot where
  index : Nat
  direction : Direction
  positions : List (Nat × Nat)
  length : Nat
  intersections : List (Nat × Nat × Nat)
deriving DecidableEq, Repr, Inhabited

/-- `GRID_SIZE = 5`. -/
def GRID_SIZE : Nat := 5

/-- The seven curated layouts of `GRID_TEMPLATES`, keyed by template id
(only the `layout` field is ever read by the solver). -/
def GRID_TEMPLATES : List (String × List (List Char)) :=
  [ ("monday",    ["...##".toList, "...##".toList, ".....".toList,
                   "##...".toList, "##...".toList]),
    ("tuesday",   ["#...#".toList, ".....".toList, ".....".toList,
                   ".....".toList, "#...#".toList]),
    ("wednesday", ["#....".toList, ".....".toList, ".....".toList,
                   ".....".toList, "....#".toList]),
    ("thursday",  ["#....".toList, ".....".toList, ".....".toList,
                   ".....".toList, "#...#".toList]),
    ("friday",    ["....#".toList, ".....".toList, ".....".toList,
                   ".....".toList, "#....".toList]),
    ("saturday",  [".....".toList, ".....".toList, ".....".toList,
                   ".....".toList, ".....".toList]),
    ("sunday",    ["#...#".toList, ".....".toList, ".....".toList,
                   ".....".toList, "#...#".toList]) ]

/-- Read `layout[r][c]`; the program never indexes out of range, the
default `'#'` is arbitrary. -/
def cellAt (layout : List (List Char)) (r c : Nat) : Char :=
  (layout.getD r []).getD c '#'

/-- `(col == 0 or layout[row][col-1] == "#") and
     (col < GRID_SIZE - 1 and layout[row][col+1] != "#")`
for a playable cell: the cell starts an across word. -/
def starts_across (layout : List (List Char)) (r c : Nat) : Bool :=
  cellAt layout r c != '#' &&
  (c == 0 || cellAt layout r (c - 1) == '#') &&
  (decide (c < GRID_SIZE - 1) && cellAt layout r (c + 1) != '#')

/-- Symmetric rule for a cell starting a down word. -/
def starts_down (layout : List (List Char)) (r c : Nat) : Bool :=
  cellAt layout r c != '#' &&
  (r == 0 || cellAt layout (r - 1) c == '#') &&
  (decide (r < GRID_SIZE - 1) && cellAt layout (r + 1) c != '#')

/-- All `(row, col)` cells in reading order (the double loop of the
source). -/
def readingCells : List (Nat × Nat) :=
  (List.range GRID_SIZE).flatMap
    (fun r => (List.range GRID_SIZE).map (fun c => (r, c)))

/-- First pass of `extract_slots`: the `cell_to_clue` map, assigning
consecutive clue numbers (from 1) in reading order to cells that start
an across or a down word. -/
def cell_to_clue (layout : List (List Char)) : List ((Nat × Nat) × Nat) :=
  (readingCells.foldl
    (fun acc rc =>
      if starts_across layout rc.1 rc.2 || starts_down layout rc.1 rc.2 then
        (acc.1 ++ [(rc, acc.2)], acc.2 + 1)
      else acc)
    (([], 1) : List ((Nat × Nat) × Nat) × Nat)).1

/-- The `while c < GRID_SIZE and layout[row][c] != "#"` walk collecting
the positions of an across run starting at `(r, c)`. -/
def across_positions (layout : List (List Char)) (r c : Nat) : List (Nat × Nat) :=
  (((List.range GRID_SIZE).drop c).takeWhile
    (fun c' => cellAt layout r c' != '#')).map (fun c' => (r, c'))

/-- The corresponding walk for a down run starting at `(r, c)`. -/
def down_positions (layout : List (List Char)) (r c : Nat) : List (Nat × Nat) :=
  (((List.range GRID_SIZE).drop r).takeWhile
    (fun r' => cellAt layout r' c != '#')).map (fun r' => (r', c))

/-- The body of the second pass of `extract_slots` for one cell: the
across slot started there (if any, runs of length < 2 discarded)
followed by the down slot started there (if any), with
`index = cell_to_clue.get((row, col), 0)`, intersections still empty. -/
def cell_slots (layout : List (List Char)) (r c : Nat) : List Slot :=
  if cellAt layout r c == '#' then []
  else
    (if c == 0 || cellAt layout r (c - 1) == '#' then
      let ps := across_positions layout r c
      if 2 ≤ ps.length then
        [⟨((cell_to_clue layout).lookup (r, c)).getD 0,
          Direction.across, ps, ps.length, []⟩]
      else []
    else []) ++
    (if r == 0 || cellAt layout (r - 1) c == '#' then
      let ps := down_positions layout r c
      if 2 ≤ ps.length then
        [⟨((cell_to_clue layout).lookup (r, c)).getD 0,
          Direction.down, ps, ps.length, []⟩]
      else []
    else [])

/-- Second pass of `extract_slots`: the reading-order double loop
appending, for each cell, the slots started there. -/
def slots_pass2 (layout : List (List Char)) : List Slot :=
  readingCells.flatMap (fun rc => cell_slots layout rc.1 rc.2)

/-- Append an intersection triple to the slot stored at index `k`. -/
def add_intersection (ss : List Slot) (k : Nat) (t : Nat × Nat × Nat) :
    List Slot :=
  match ss.get? k with
  | some s => ss.set k { s with intersections := s.intersections ++ [t] }
  | none => ss

/-- Third pass of `extract_slots` for one ordered pair `i < j`: if the
slots have opposite directions and share a cell, record the symmetric
triples on both (a row run and a column run share at most one cell, so
the choice made by `common.pop()` is determined). -/
def record_intersections (ss : List Slot) (i j : Nat) : List Slot :=
  match ss.get? i, ss.get? j with
  | some a, some b =>
    if a.direction == b.direction then ss
    else
      match a.positions.filter (fun p => b.positions.contains p) with
      | [] => ss
      | cell :: _ =>
        let pa := a.positions.indexOf cell
        let pb := b.positions.indexOf cell
        add_intersection (add_intersection ss i (j, pa, pb)) j (i, pb, pa)
  | _, _ => ss

/-- The ordered pairs `(i, j)` with `i < j < n`, in the enumeration
order of the source's nested loops. -/
def slot_pairs (n : Nat) : List (Nat × Nat) :=
  (List.range n).flatMap
    (fun i => ((List.range n).filter (fun j => i < j)).map (fun j => (i, j)))

/-- `extract_slots` run on an explicit layout: the three passes of the
source function after the `GRID_TEMPLATES[template_id]` lookup. -/
def extract_slots_layout (layout : List (List Char)) : List Slot :=
  let base := slots_pass2 layout
  (slot_pairs base.length).foldl
    (fun ss p => record_intersections ss p.1 p.2) base

/-- `extract_slots(template_id)` of the source. -/
def extract_slots (template_id : String) : List Slot :=
  extract_slots_layout ((GRID_TEMPLATES.lookup template_id).getD [])

/-! ## Properties of the slot extractor -/

/-- The reading-order list of cells that start an across or a down word
(exactly the cells the first pass numbers). -/
def start_cells (layout : List (List Char)) : List (Nat × Nat) :=
  readingCells.filter
    (fun rc => starts_across layout rc.1 rc.2 || starts_down layout rc.1 rc.2)

/-- Decidable statement of the numbering law for one layout: the slots'
starting cells are exactly the cells that start an across or down word,
and each slot's clue number is `1 +` the reading-order rank of its
starting cell — hence numbering is dense, starts at 1, and is strictly
increasing in reading order. -/
def numbering_law (layout : List (List Char)) : Bool :=
  let slots := extract_slots_layout layout
  let starts := start_cells layout
  readingCells.all (fun rc =>
    (starts_across layout rc.1 rc.2 || starts_down layout rc.1 rc.2) ==
      slots.any (fun s => s.positions.head? == some rc)) &&
  slots.all (fun s =>
    match s.positions.head? with
    | some h => starts.contains h && s.index == starts.indexOf h + 1
    | none => false)

/-- Decidable statement of intersection consistency for one layout:
every recorded triple `(o, m, t)` of slot `i` points to a valid slot of
the opposite direction that records the mirrored triple `(i, t, m)`,
the two referenced positions denote the same cell, and any two distinct
slots share at most one cell. -/
def intersections_consistent (layout : List (List Char)) : Bool :=
  let slots := extract_slots_layout layout
  let n := slots.length
  ((List.range n).all (fun i =>
    let a := slots.getD i default
    a.intersections.all (fun t =>
      decide (t.1 < n) &&
      (let b := slots.getD t.1 default
       b.intersections.contains (i, t.2.2, t.2.1) &&
       (a.positions.get? t.2.1).isSome &&
       a.positions.get? t.2.1 == b.positions.get? t.2.2 &&
       a.direction != b.direction)))) &&
  ((List.range n).all (fun i => (List.range n).all (fun j =>
    i == j ||
    ((slots.getD i default).positions.filter
      (fun p => (slots.getD j default).positions.contains p)).length ≤ 1)))



/-! ## C9: no INVALID_TEMPLATE error exists; short runs are discarded -/

/-- A layout whose cell `(0, 0)` is playable but isolated: both the
across run and the down run through it have length 1. -/
def shortSlotLayout : List (List Char) :=
  [".#...".toList, "#....".toList, ".....".toList,
   ".....".toList, ".....".toList]








/-! ## Dictionary management and candidate scoring -/

/-- The uppercase alphabet (bucket keys of the letter index). -/
def LETTERS : List Char := "ABCDEFGHIJKLMNOPQRSTUVWXYZ".toList

/-- `LETTER_FREQUENCY.get(letter, 1)`: the crossability letter weights
with default 1. -/
def LETTER_FREQUENCY (c : Char) : ℚ :=
  if c = 'E' then 12 else if c = 'T' then 9 else if c = 'A' then 8
  else if c = 'O' then 7 else if c = 'I' then 7 else if c = 'N' then 6
  else if c = 'S' then 6 else if c = 'H' then 5 else if c = 'R' then 5
  else if c = 'D' then 4 else if c = 'L' then 4 else if c = 'C' then 3
  else if c = 'U' then 3 else if c = 'M' then 3 else if c = 'W' then 2
  else if c = 'F' then 2 else if c = 'G' then 2 else if c = 'Y' then 2
  else if c = 'P' then 2 else if c = 'B' then 2 else 1

/-- `calculate_crossability_score`: average letter weight of the
upper-cased word (0 for the empty word). -/
def calculate_crossability_score (word : Word) : ℚ :=
  if word = [] then 0
  else (word.map (fun c => LETTER_FREQUENCY c.toUpper)).sum / word.length

/-- Sort key of `sort_slots_by_difficulty`:
`(-len(s.intersections), -s.length)`. -/
def slot_sort_key (s : Slot) : Int × Int :=
  (-(s.intersections.length : Int), -(s.length : Int))

/-- Lexicographic `<` on sort keys (Python tuple comparison). -/
def key_lt (a b : Int × Int) : Bool :=
  a.1 < b.1 || (a.1 == b.1 && a.2 < b.2)

/-- Stable insertion for ascending sort by `slot_sort_key`: an element
is placed after every already-placed element whose key is ≤ its own. -/
def insert_slot (x : Slot) : List Slot → List Slot
  | [] => [x]
  | y :: ys =>
    if key_lt (slot_sort_key x) (slot_sort_key y) then x :: y :: ys
    else y :: insert_slot x ys

/-- `sort_slots_by_difficulty`: Python's stable sort by
`(-len(intersections), -length)` — most-constrained slots first. -/
def sort_slots_by_difficulty (slots : List Slot) : List Slot :=
  slots.foldl (fun acc s => insert_slot s acc) []

/-- The three-level index of `build_letter_index`:
`keys` are the lengths present in the dict, `buckets L p c` the set of
words stored under `index[L][p][c]` (the `.get(char, set())` read
yields `∅` for letters outside A–Z, for which no bucket was created). -/
structure LetterIndex where
  keys : List Nat
  buckets : Nat → Nat → Char → List Word

/-- `build_letter_index(words_by_length)`: every word of the length-`L`
list is inserted in bucket `(p, word[p])` for each of its positions, so
bucket `(L, p, c)` holds exactly the length-`L` words with `c` at `p`. -/
def build_letter_index (words_by_length : List (Nat × List Word)) :
    LetterIndex where
  keys := words_by_length.map Prod.fst
  buckets := fun L p c =>
    if (words_by_length.map Prod.fst).contains L && LETTERS.contains c then
      ((words_by_length.lookup L).getD []).filter (fun w => w.get? p == some c)
    else []

/-! ## The backtracking solver -/

/-- `MAX_CANDIDATES = 5000`. -/
def MAX_CANDIDATES : Nat := 5000

/-- `MAX_ATTEMPTS = 500000`. -/
def MAX_ATTEMPTS : Nat := 500000

/-- `TIMEOUT_SECONDS = 60`. -/
def TIMEOUT_SECONDS : ℚ := 60

/-- The read-only data of one `CrosswordSolver` run, together with the
oracles standing for the ambient effects: `enum` is the iteration
order that `list(...)` imposes on a Python set, `rand` the stream of
`random.uniform(0, 2)` drawings, `clock` the stream of `time.time()`
readings, `start_time` the reading stored by `get_solution`. -/
structure Env where
  slots : List Slot
  words_by_length : List (Nat × List Word)
  letter_index : LetterIndex
  enum : List Word → List Word
  rand : Nat → ℚ
  clock : Nat → ℚ
  start_time : ℚ

/-- The mutable state of one `CrosswordSolver`: grid, used-word set,
counters, and cursors into the clock and randomness streams. -/
@[ext]
structure SolverState where
  grid : Nat → Nat → Cell
  used_words : List Word
  attempts : Nat
  backtracks : Nat
  tick : Nat
  randk : Nat

/-- The grid as built by `CrosswordSolver.__init__`: block cells where
the layout has `'#'`, unfilled cells elsewhere. -/
def init_grid (layout : List (List Char)) : Nat → Nat → Cell :=
  fun r c => if cellAt layout r c == '#' then Cell.block else Cell.empty

/-- Solver state after `CrosswordSolver.__init__`. -/
def initial_state (template_id : String) : SolverState where
  grid := init_grid ((GRID_TEMPLATES.lookup template_id).getD [])
  used_words := []
  attempts := 0
  backtracks := 0
  tick := 0
  randk := 0

/-- Overwrite one grid cell. -/
def set_cell (g : Nat → Nat → Cell) (r c : Nat) (v : Cell) :
    Nat → Nat → Cell :=
  fun r' c' => if r' = r ∧ c' = c then v else g r' c'

/-- One `time.time()` call: read the clock stream and advance it. -/
def time_time (env : Env) (st : SolverState) : ℚ × SolverState :=
  (env.clock st.tick, { st with tick := st.tick + 1 })

/-- The letters a grid holds along a slot, `'_'` for cells that are
`None` or `"#"`. -/
def grid_pattern (g : Nat → Nat → Cell) (slot : Slot) : List Char :=
  slot.positions.map (fun p =>
    match g p.1 p.2 with
    | Cell.letter ch => ch
    | _ => '_')

/-- `get_current_pattern`: the letters along the slot in the current
grid, `'_'` for cells that are `None` or `"#"`. -/
def get_current_pattern (st : SolverState) (slot : Slot) : List Char :=
  grid_pattern st.grid slot

/-- `get_matching_words_fast`: intersect the index buckets of the fixed
pattern positions (all length-`L` words when the pattern has no fixed
position; `∅` when the length is not indexed), minus the used words. -/
def get_matching_words_fast (env : Env) (st : SolverState) (slot : Slot) :
    List Word :=
  let pattern := get_current_pattern st slot
  if env.letter_index.keys.contains slot.length then
    let result := pattern.enum.foldl
      (fun (result : Option (List Word)) pc =>
        if pc.2 != '_' then
          match result with
          | none => some (env.letter_index.buckets slot.length pc.1 pc.2)
          | some r => some (r.filter (fun w =>
              (env.letter_index.buckets slot.length pc.1 pc.2).contains w))
        else result)
      none
    (result.getD ((env.words_by_length.lookup slot.length).getD [])).filter
      (fun w => !st.used_words.contains w)
  else []

/-- The `for i, (row, col) in enumerate(slot.positions)` loop of
`place_word`, writing `word[i]` into each cell. -/
def place_go (word : Word) : Nat → List (Nat × Nat) → (Nat → Nat → Cell) →
    Nat → Nat → Cell
  | _, [], g => g
  | idx, p :: rest, g =>
    place_go word (idx + 1) rest
      (set_cell g p.1 p.2 (Cell.letter (word.getD idx 'A')))

/-- `place_word`: write `word[i]` into each slot position, add the word
to the used set.  (The default `'A'` of `getD` is never read: placed
words have the slot's length.) -/
def place_word (st : SolverState) (slot : Slot) (word : Word) :
    SolverState :=
  { st with
    grid := place_go word 0 slot.positions st.grid
    used_words :=
      if st.used_words.contains word then st.used_words
      else word :: st.used_words }

/-- The `is_shared` test of `remove_word`: offset `idx` of the slot is
recorded as an intersection with a slot at index `< k` of the solver's
slot list. -/
def shared_offset (slot : Slot) (k idx : Nat) : Bool :=
  slot.intersections.any (fun t => decide (t.1 < k) && t.2.1 == idx)

/-- The `for i, (row, col) in enumerate(slot.positions)` loop of
`remove_word`: clear the cell unless its offset is recorded as an
intersection with a slot at index `< k` in the solver's slot list. -/
def remove_go (slot : Slot) (k : Nat) : Nat → List (Nat × Nat) →
    (Nat → Nat → Cell) → Nat → Nat → Cell
  | _, [], g => g
  | idx, p :: rest, g =>
    remove_go slot k (idx + 1) rest
      (if shared_offset slot k idx then g else set_cell g p.1 p.2 Cell.empty)

/-- `remove_word`: clear the slot's cells except those shared (at the
same offset) with a slot earlier in `self.slots`
(`self.slots.index(slot)`), and discard the word from the used set. -/
def remove_word (env : Env) (st : SolverState) (slot : Slot) (word : Word) :
    SolverState :=
  { st with
    grid := remove_go slot (env.slots.indexOf slot) 0 slot.positions st.grid
    used_words := st.used_words.erase word }

/-- `is_timed_out`: `time.time() - start_time > TIMEOUT_SECONDS`. -/
def is_timed_out (env : Env) (st : SolverState) : Bool × SolverState :=
  let (t, st') := time_time env st
  (decide (TIMEOUT_SECONDS < t - env.start_time), st')

/-- `has_any_candidate`: `False` when timed out, else whether the slot
still matches at least one word. -/
def has_any_candidate (env : Env) (st : SolverState) (slot : Slot) :
    Bool × SolverState :=
  let (timedOut, st') := is_timed_out env st
  if timedOut then (false, st')
  else (!(get_matching_words_fast env st' slot).isEmpty, st')

/-- The loop of `forward_check` over the intersection triples, with its
early `return False`. -/
def forward_check_go (env : Env) (slot : Slot) :
    List (Nat × Nat × Nat) → SolverState → Bool × SolverState
  | [], st => (true, st)
  | t :: rest, st =>
    let other := env.slots.getD t.1 default
    let pattern := get_current_pattern st other
    if pattern.contains '_' then
      let (has, st') := has_any_candidate env st other
      if has then forward_check_go env slot rest st' else (false, st')
    else forward_check_go env slot rest st

/-- `forward_check`: every not-yet-filled slot intersecting `slot` must
retain at least one candidate. -/
def forward_check (env : Env) (st : SolverState) (slot : Slot) :
    Bool × SolverState :=
  forward_check_go env slot slot.intersections st

/-- Stable insertion for the descending candidate sort: a candidate is
placed after every already-placed candidate whose key is ≥ its own
(Python's `sort(..., reverse=True)` is stable). -/
def insert_desc (x : Word × ℚ) : List (Word × ℚ) → List (Word × ℚ)
  | [] => [x]
  | y :: ys => if y.2 < x.2 then x :: y :: ys else y :: insert_desc x ys

/-- Stable descending sort by the jittered score. -/
def sort_desc (l : List (Word × ℚ)) : List (Word × ℚ) :=
  l.foldl (fun acc x => insert_desc x acc) []

/-- `get_candidates`: list the matching set (in the `enum` iteration
order), attach `crossability + random.uniform(0, 2)` keys (one drawing
per candidate, in list order), sort descending (stably), and truncate
to `MAX_CANDIDATES`. -/
def get_candidates (env : Env) (st : SolverState) (slot : Slot) :
    List Word × SolverState :=
  let matching := get_matching_words_fast env st slot
  if matching.isEmpty then ([], st)
  else
    let candidates := env.enum matching
    let scored := candidates.map (fun w => (w, calculate_crossability_score w))
    let jittered := scored.enum.map
      (fun is => (is.2.1, is.2.2 + env.rand (st.randk + is.1)))
    let sorted := sort_desc jittered
    ((sorted.map Prod.fst).take MAX_CANDIDATES,
     { st with randk := st.randk + scored.length })

/-- The `for word in candidates` loop of `solve`: place the word,
forward-check, recurse through `next` (the continuation standing for
`solve(slot_index + 1)`); on failure of either, remove the word, count
a backtrack and try the next candidate. -/
def try_words (env : Env) (next : SolverState → Bool × SolverState)
    (slot : Slot) : List Word → SolverState → Bool × SolverState
  | [], st => (false, st)
  | word :: rest, st =>
    let st1 := place_word st slot word
    let (ok, st2) := forward_check env st1 slot
    if ok then
      match next st2 with
      | (true, st3) => (true, st3)
      | (false, st3) =>
        let st4 := remove_word env st3 slot word
        try_words env next slot rest
          { st4 with backtracks := st4.backtracks + 1 }
    else
      let st4 := remove_word env st2 slot word
      try_words env next slot rest
        { st4 with backtracks := st4.backtracks + 1 }

/-- `solve(slot_index)`: count the attempt, enforce the attempt cap and
the timeout, succeed when all slots are filled, else try the slot's
candidates in order.  The extra argument `n` is the structural fuel
`slots.length - slot_index` maintained by every caller; the `n = 0`
branch is unreachable in any actual run. -/
def solve (env : Env) : Nat → Nat → SolverState → Bool × SolverState
  | n, i, st =>
    let st := { st with attempts := st.attempts + 1 }
    if MAX_ATTEMPTS < st.attempts then (false, st)
    else
      let (t, st) := time_time env st
      if TIMEOUT_SECONDS < t - env.start_time then (false, st)
      else if env.slots.length ≤ i then (true, st)
      else
        match n with
        | 0 => (false, st)
        | n' + 1 =>
          let slot := env.slots.getD i default
          let (cands, st) := get_candidates env st slot
          try_words env (fun st' => solve env n' (i + 1) st') slot cands st

/-- `get_solution`: record the start time, run `solve`, measure the
elapsed time; return the grid on success, `None` on failure. -/
def get_solution (env₀ : Env) (st : SolverState) :
    Option (Nat → Nat → Cell) × ℚ × SolverState :=
  let (start, st) := time_time env₀ st
  let env := { env₀ with start_time := start }
  let (success, st) := solve env env.slots.length 0 st
  let (fin, st') := time_time env₀ st
  ((if success then some st'.grid else none), fin - start, st')

/-! ## The escalation controller of `generate_puzzle` -/

/-- `range(1, attempts_for_tier + 1)`: the attempt numbers of one tier
(`tier_attempts` defaults to 5 per tier). -/
def tier_attempt_numbers (attempts_for_tier : Nat) : List Nat :=
  (List.range attempts_for_tier).map (· + 1)

/-- The inner `for attempt in range(1, attempts_for_tier + 1)` loop of
`generate_puzzle`: run the solver on successive attempt numbers,
stopping at the first returned grid. -/
def run_attempts (solve_attempt : Nat → Option (Nat → Nat → Cell)) :
    List Nat → Option (Nat → Nat → Cell)
  | [] => none
  | a :: rest =>
    match solve_attempt a with
    | some g => some g
    | none => run_attempts solve_attempt rest

/-- The `for tier in [0, 1]` escalation loop of `generate_puzzle`, with
one fresh solver run per (tier, attempt) abstracted as an oracle (each
run builds a new `CrosswordSolver` whose outcome depends on the ambient
random and clock state).  Returns the solved grid together with
`final_tier`; returns `none` (the source's `return None`, no
placeholder puzzle) when both tiers exhaust their attempts. -/
def generate_puzzle_escalation
    (solve_attempt : Nat → Nat → Option (Nat → Nat → Cell)) :
    Option ((Nat → Nat → Cell) × Nat) :=
  match run_attempts (solve_attempt 0) (tier_attempt_numbers 5) with
  | some g => some (g, 0)
  | none =>
    match run_attempts (solve_attempt 1) (tier_attempt_numbers 5) with
    | some g => some (g, 1)
    | none => none

/-! ## Specifications used by the theorems -/

/-- Membership specification of the candidate set of a slot: a
dictionary word of the slot's length that agrees with the pattern the
grid currently shows along the slot at every non-wildcard position and
is not a used word. -/
def MatchSpec (env : Env) (g : Nat → Nat → Cell) (used : List Word)
    (slot : Slot) (w : Word) : Prop :=
  w ∈ (env.words_by_length.lookup slot.length).getD [] ∧
  (∀ pc ∈ (grid_pattern g slot).enum, pc.2 ≠ '_' → w.get? pc.1 = some pc.2) ∧
  w ∉ used

/-- Well-formedness of a solver environment: the slot list is
duplicate-free with correct `length` fields and duplicate-free
positions; the intersection triples are sound (in range, denoting a
genuinely shared cell) and complete (every shared cell of two distinct
slots is recorded); the letter index is the one built from the
dictionary; dictionary words have the keyed length and uppercase A–Z
letters; and the set-iteration oracle only selects elements.

The index fields `inters_sound`/`inters_complete` are NOT established
by `CrosswordSolver.__init__` for most catalog templates: the
constructor sorts the slots with `sort_slots_by_difficulty` without
remapping the intersection triples, which keep their pre-sort indices.
Among the seven templates the sorted list satisfies them only for
saturday, where the sort is the identity.  The conditional lemmas below
therefore describe the algorithm on index-consistent slot lists only;
the theorems for claims C1, C2 and C10 exhibit the divergence of the
real (stale-index) environments. -/
structure EnvWF (env : Env) : Prop where
  slots_nodup : env.slots.Nodup
  positions_nodup : ∀ s ∈ env.slots, s.positions.Nodup
  length_eq : ∀ s ∈ env.slots, s.length = s.positions.length
  inters_sound : ∀ k, k < env.slots.length →
    ∀ t ∈ (env.slots.getD k default).intersections,
      t.1 < env.slots.length ∧
      t.2.1 < (env.slots.getD k default).positions.length ∧
      t.2.2 < (env.slots.getD t.1 default).positions.length ∧
      (env.slots.getD k default).positions.getD t.2.1 (0, 0) =
        (env.slots.getD t.1 default).positions.getD t.2.2 (0, 0)
  inters_complete : ∀ k, k < env.slots.length → ∀ o, o < env.slots.length →
    k ≠ o → ∀ m, m < (env.slots.getD k default).positions.length →
    ∀ t, t < (env.slots.getD o default).positions.length →
    (env.slots.getD k default).positions.getD m (0, 0) =
      (env.slots.getD o default).positions.getD t (0, 0) →
    (o, m, t) ∈ (env.slots.getD k default).intersections
  idx_eq : env.letter_index = build_letter_index env.words_by_length
  wbl_len : ∀ pr ∈ env.words_by_length, ∀ w ∈ pr.2, w.length = pr.1
  wbl_chars : ∀ pr ∈ env.words_by_length, ∀ w ∈ pr.2, ∀ c ∈ w, c ∈ LETTERS
  enum_sub : ∀ l : List Word, ∀ w ∈ env.enum l, w ∈ l

/-- The search invariant on grid and used-word set at level `i` of the
slot order: no slot cell is a block; every slot before `i` is filled
with a dictionary word of its length recorded in the used set; those
words are pairwise distinct; and the cells of slots from `i` on are
filled only at offsets recorded as intersections with slots before
`i`. -/
structure SearchInv (env : Env) (i : Nat) (g : Nat → Nat → Cell)
    (used : List Word) : Prop where
  no_block : ∀ s ∈ env.slots, ∀ p ∈ s.positions, g p.1 p.2 ≠ Cell.block
  filled : ∀ j, j < i → j < env.slots.length →
    grid_pattern g (env.slots.getD j default) ∈
      (env.words_by_length.lookup (env.slots.getD j default).length).getD []
    ∧ '_' ∉ grid_pattern g (env.slots.getD j default)
    ∧ grid_pattern g (env.slots.getD j default) ∈ used
  distinct : ∀ j1 j2, j1 < j2 → j2 < i → j2 < env.slots.length →
    grid_pattern g (env.slots.getD j1 default) ≠
      grid_pattern g (env.slots.getD j2 default)
  shared_only : ∀ k, i ≤ k → k < env.slots.length →
    ∀ idx, idx < (env.slots.getD k default).positions.length →
    (∃ ch, g ((env.slots.getD k default).positions.getD idx (0, 0)).1
             ((env.slots.getD k default).positions.getD idx (0, 0)).2 =
           Cell.letter ch) →
    ∃ t ∈ (env.slots.getD k default).intersections, t.1 < i ∧ t.2.1 = idx

/-- Soundness of a returned grid: every slot reads back a dictionary
word of exactly the slot's length, and the words of distinct slots are
pairwise distinct. -/
def sound_grid (env : Env) (g : Nat → Nat → Cell) : Prop :=
  (∀ j, j < env.slots.length →
    grid_pattern g (env.slots.getD j default) ∈
      (env.words_by_length.lookup (env.slots.getD j default).length).getD []
    ∧ (grid_pattern g (env.slots.getD j default)).length =
        (env.slots.getD j default).length) ∧
  ∀ j1 j2, j1 < j2 → j2 < env.slots.length →
    grid_pattern g (env.slots.getD j1 default) ≠
      grid_pattern g (env.slots.getD j2 default)

/-! ## Concrete environments used by witnesses and counterexamples -/

/-- A one-slot environment with dictionary `{CAT}`.  Its clock stays at
0 for the readings taken during `solve` (ticks ≤ 2) and jumps to 100
afterwards, exhibiting a run whose solving succeeds within the budget
while the post-hoc elapsed measurement exceeds the timeout. -/
def env1 : Env where
  slots := [⟨1, Direction.across, [(0, 0), (0, 1), (0, 2)], 3, []⟩]
  words_by_length := [(3, ["CAT".toList])]
  letter_index := build_letter_index [(3, ["CAT".toList])]
  enum := id
  rand := fun _ => 0
  clock := fun t => if t ≤ 2 then 0 else 100
  start_time := 0

/-- `env1` with a clock that has already passed the timeout at the
first in-solver reading: only the clock stream differs from `env1`. -/
def env1slow : Env :=
  { env1 with clock := fun t => if t = 0 then 0 else 100 }

/-- An all-empty 5×5 starting state (grid without blocks, as the
constructor builds for the saturday template). -/
def st0 : SolverState where
  grid := fun _ _ => Cell.empty
  used_words := []
  attempts := 0
  backtracks := 0
  tick := 0
  randk := 0

/-- The slot list `CrosswordSolver.__init__` builds for the tuesday
template: the extractor's slots, sorted by difficulty.  The recorded
intersection triples keep their pre-sort indices, so on this list they
are stale: e.g. the across-row-1 slot sits at sorted position 3 but its
triple for the down-col-3 slot (sorted position 2) still names pre-sort
index 3, and the down-col-0 slot at sorted position 7 carries pre-sort
indices 7 and 8 for the across-row-2 and across-row-3 slots, which the
sort moved to positions 4 and 5. -/
def tuesday_slots : List Slot :=
  sort_slots_by_difficulty (extract_slots "tuesday")

/-- Dictionary for the C2 counterexample run. -/
def dict_c2 : List (Nat × List Word) :=
  [(5, ["BLIMP".toList, "ROOST".toList, "QUAKE".toList, "CLOUT".toList])]

/-- A real tuesday solver environment (constructor slot list, index
built from the dictionary, identity set-iteration order). -/
def env_c2 : Env where
  slots := tuesday_slots
  words_by_length := dict_c2
  letter_index := build_letter_index dict_c2
  enum := id
  rand := fun _ => 0
  clock := fun _ => 0
  start_time := 0

/-- The solver state after the first three placements of a tuesday run:
the three length-5 down slots (sorted positions 0, 1, 2) filled, in the
solver's own order, by the solver's own `place_word`. -/
def st_pre_c2 : SolverState :=
  place_word (place_word (place_word (initial_state "tuesday")
    (tuesday_slots.getD 0 default) "BLIMP".toList)
    (tuesday_slots.getD 1 default) "ROOST".toList)
    (tuesday_slots.getD 2 default) "QUAKE".toList

/-- Dictionary for the C1 counterexample run. -/
def dict_c1 : List (Nat × List Word) :=
  [(5, ["CABIN".toList, "ABCDE".toList, "FGHIJ".toList,
        "BABGK".toList, "OBCHL".toList, "TIDIM".toList]),
   (3, ["BOT".toList, "CAF".toList, "CQZ".toList])]

/-- A real tuesday solver environment with the C1 dictionary. -/
def env_c1 : Env where
  slots := tuesday_slots
  words_by_length := dict_c1
  letter_index := build_letter_index dict_c1
  enum := id
  rand := fun _ => 0
  clock := fun _ => 0
  start_time := 0

/-- The solver state of a tuesday run with the first seven slots
(sorted positions 0-6) filled consistently, in the solver's own order,
by the solver's own `place_word`. -/
def st_c1 : SolverState :=
  place_word (place_word (place_word (place_word (place_word (place_word
    (place_word (initial_state "tuesday")
    (tuesday_slots.getD 0 default) "BABGK".toList)
    (tuesday_slots.getD 1 default) "OBCHL".toList)
    (tuesday_slots.getD 2 default) "TIDIM".toList)
    (tuesday_slots.getD 3 default) "CABIN".toList)
    (tuesday_slots.getD 4 default) "ABCDE".toList)
    (tuesday_slots.getD 5 default) "FGHIJ".toList)
    (tuesday_slots.getD 6 default) "BOT".toList

/-- `st_c1` after placing and then removing the candidate `CAF` in the
down-col-0 slot (sorted position 7) — exactly the pair of calls the
`solve` candidate loop performs when a candidate is rejected. -/
def st_c1rm : SolverState :=
  remove_word env_c1
    (place_word st_c1 (tuesday_slots.getD 7 default) "CAF".toList)
    (tuesday_slots.getD 7 default) "CAF".toList

/-- Dictionary for the C10 counterexample run. -/
def dict_c10 : List (Nat × List Word) :=
  [(5, ["AABBC".toList, "DBEFG".toList]), (3, ["CAT".toList])]

/-- A real tuesday solver environment whose dictionary makes the whole
search fail after placing and backtracking two words. -/
def env_c10 : Env where
  slots := tuesday_slots
  words_by_length := dict_c10
  letter_index := build_letter_index dict_c10
  enum := id
  rand := fun _ => 0
  clock := fun _ => 0
  start_time := 0

/-- C7: on every template of the catalog, the slot extractor assigns
clue numbers in reading order exactly to the playable cells that start
an across slot, a down slot, or both; the numbering is dense, starts at
1, and is strictly increasing in reading order of the starting cells. -/
theorem extract_slots_numbering_law :
    GRID_TEMPLATES.all (fun p => numbering_law p.2) = true := by decide

/-- C8: on every template of the catalog, the recorded intersections are
symmetric and self-consistent — if slot `A` records `(B, i, j)` then `B`
records `(A, j, i)` and `A.positions[i] = B.positions[j]` — only slots
of opposite direction intersect, and two distinct slots share at most
one cell. -/
theorem extract_slots_intersections_consistent :
    GRID_TEMPLATES.all (fun p => intersections_consistent p.2) = true := by
  decide

/-- C9 counterexample: on a template with a (maximal) run of length 1
the extractor does not fail in any way: it returns an ordinary slot
list — the isolated cell is silently dropped from every slot. There is
no INVALID_TEMPLATE error path in `extract_slots`. -/
theorem extract_slots_no_invalid_template_error :
    (extract_slots_layout shortSlotLayout).length = 10 ∧
    (extract_slots_layout shortSlotLayout).all
      (fun s => decide (2 ≤ s.length) && !(s.positions.contains (0, 0))) =
      true := by decide

/-- Every slot produced by the second pass has length at least 2 (the
`if len(positions) >= 2` guard). -/
theorem slots_pass2_min_length (layout : List (List Char)) :
    ∀ s ∈ slots_pass2 layout, 2 ≤ s.length := by
  intro s hs
  rw [slots_pass2, List.mem_flatMap] at hs
  obtain ⟨rc, -, hmem⟩ := hs
  unfold cell_slots at hmem
  split at hmem
  · simp at hmem
  · rw [List.mem_append] at hmem
    rcases hmem with hmem | hmem <;>
      (split at hmem <;> try (split at hmem)) <;>
      simp_all

/-- `add_intersection` does not change any slot's `length` field. -/
theorem add_intersection_min_length (ss : List Slot) (k : Nat)
    (t : Nat × Nat × Nat) (h : ∀ s ∈ ss, 2 ≤ s.length) :
    ∀ s ∈ add_intersection ss k t, 2 ≤ s.length := by
  intro s hs
  unfold add_intersection at hs
  cases hk : ss.get? k with
  | none => rw [hk] at hs; exact h s hs
  | some s₀ =>
    rw [hk] at hs
    rcases List.mem_or_eq_of_mem_set hs with hmem | rfl
    · exact h s hmem
    · exact h s₀ (List.get?_mem hk)

/-- `record_intersections` does not change any slot's `length` field. -/
theorem record_intersections_min_length (ss : List Slot) (i j : Nat)
    (h : ∀ s ∈ ss, 2 ≤ s.length) :
    ∀ s ∈ record_intersections ss i j, 2 ≤ s.length := by
  unfold record_intersections
  split
  · split
    · exact h
    · split
      · exact h
      · exact add_intersection_min_length _ _ _
          (add_intersection_min_length _ _ _ h)
  · exact h

/-- The third-pass fold preserves slot lengths. -/
theorem foldl_record_min_length (pairs : List (Nat × Nat)) (base : List Slot)
    (h : ∀ s ∈ base, 2 ≤ s.length) :
    ∀ s ∈ pairs.foldl (fun ss p => record_intersections ss p.1 p.2) base,
      2 ≤ s.length := by
  induction pairs generalizing base with
  | nil => exact h
  | cons p rest ih => exact ih _ (record_intersections_min_length _ _ _ h)

/-- C9 (amended): slot extraction never fails — there is no
INVALID_TEMPLATE error path.  On any layout, candidate runs of length
less than 2 are silently discarded, so every returned slot has length
at least 2. -/
theorem extract_slots_layout_min_length (layout : List (List Char)) :
    ∀ s ∈ extract_slots_layout layout, 2 ≤ s.length :=
  foldl_record_min_length _ _ (slots_pass2_min_length layout)

/-- Witness for C9 (amended): the first monday slot has length ≥ 2. -/
theorem extract_slots_layout_min_length_witness :
    2 ≤ ((extract_slots_layout
      ((GRID_TEMPLATES.lookup "monday").getD [])).getD 0 default).length :=
  extract_slots_layout_min_length
    ((GRID_TEMPLATES.lookup "monday").getD [])
    ((extract_slots_layout
      ((GRID_TEMPLATES.lookup "monday").getD [])).getD 0 default)
    (by decide)

/-! ## Grid update lemmas -/

theorem set_cell_same (g : Nat → Nat → Cell) (r c : Nat) (v : Cell) :
    set_cell g r c v r c = v := by simp [set_cell]

theorem set_cell_other (g : Nat → Nat → Cell) (r c : Nat) (v : Cell)
    (r' c' : Nat) (h : ¬(r' = r ∧ c' = c)) :
    set_cell g r c v r' c' = g r' c' := by simp [set_cell, h]

theorem place_go_not_mem (word : Word) (ps : List (Nat × Nat)) :
    ∀ (idx : Nat) (g : Nat → Nat → Cell) (r c : Nat), (r, c) ∉ ps →
      place_go word idx ps g r c = g r c := by
  induction ps with
  | nil => intro idx g r c _; rfl
  | cons p rest ih =>
    intro idx g r c h
    rw [place_go, ih _ _ _ _ (fun hm => h (List.mem_cons_of_mem _ hm))]
    refine set_cell_other _ _ _ _ _ _ (fun hrc => h ?_)
    rw [show p = (p.1, p.2) from rfl, ← hrc.1, ← hrc.2]
    exact List.mem_cons_self _ _

theorem place_go_get (word : Word) (ps : List (Nat × Nat)) :
    ∀ (idx : Nat) (g : Nat → Nat → Cell) (j : Nat), ps.Nodup →
      j < ps.length →
      place_go word idx ps g (ps.getD j (0, 0)).1 (ps.getD j (0, 0)).2 =
        Cell.letter (word.getD (idx + j) 'A') := by
  induction ps with
  | nil => intro idx g j _ hj; simp at hj
  | cons p rest ih =>
    intro idx g j hnd hj
    rcases List.nodup_cons.mp hnd with ⟨hp, hrest⟩
    cases j with
    | zero =>
      have hps : ((p :: rest).getD 0 (0, 0)) = p := rfl
      rw [hps, place_go, place_go_not_mem word rest _ _ _ _
        (by rw [show p = (p.1, p.2) from rfl] at hp; exact hp)]
      rw [set_cell_same, Nat.add_zero]
    | succ j' =>
      have hps : ((p :: rest).getD (j' + 1) (0, 0)) = rest.getD j' (0, 0) := rfl
      rw [hps, place_go]
      have harith : idx + (j' + 1) = (idx + 1) + j' := by omega
      rw [harith]
      exact ih (idx + 1) _ j' hrest (by simpa using hj)

theorem remove_go_not_mem (slot : Slot) (k : Nat) (ps : List (Nat × Nat)) :
    ∀ (idx : Nat) (g : Nat → Nat → Cell) (r c : Nat), (r, c) ∉ ps →
      remove_go slot k idx ps g r c = g r c := by
  induction ps with
  | nil => intro idx g r c _; rfl
  | cons p rest ih =>
    intro idx g r c h
    rw [remove_go, ih _ _ _ _ (fun hm => h (List.mem_cons_of_mem _ hm))]
    split
    · rfl
    · refine set_cell_other _ _ _ _ _ _ (fun hrc => h ?_)
      rw [show p = (p.1, p.2) from rfl, ← hrc.1, ← hrc.2]
      exact List.mem_cons_self _ _

theorem remove_go_get (slot : Slot) (k : Nat) (ps : List (Nat × Nat)) :
    ∀ (idx : Nat) (g : Nat → Nat → Cell) (j : Nat), ps.Nodup →
      j < ps.length →
      remove_go slot k idx ps g (ps.getD j (0, 0)).1 (ps.getD j (0, 0)).2 =
        (if shared_offset slot k (idx + j)
         then g (ps.getD j (0, 0)).1 (ps.getD j (0, 0)).2
         else Cell.empty) := by
  induction ps with
  | nil => intro idx g j _ hj; simp at hj
  | cons p rest ih =>
    intro idx g j hnd hj
    rcases List.nodup_cons.mp hnd with ⟨hp, hrest⟩
    have hpmem : (p.1, p.2) ∉ rest := by
      rw [show (p.1, p.2) = p from rfl]; exact hp
    cases j with
    | zero =>
      have hps : ((p :: rest).getD 0 (0, 0)) = p := rfl
      rw [hps, remove_go, remove_go_not_mem slot k rest _ _ _ _ hpmem]
      rw [Nat.add_zero]
      split
      · rfl
      · rw [set_cell_same]
    | succ j' =>
      have hps : ((p :: rest).getD (j' + 1) (0, 0)) = rest.getD j' (0, 0) := rfl
      rw [hps, remove_go]
      have harith : idx + (j' + 1) = (idx + 1) + j' := by omega
      have hj' : j' < rest.length := by simpa using hj
      rw [harith, ih (idx + 1) _ j' hrest hj']
      have hmem : rest.getD j' (0, 0) ∈ rest := by
        rw [List.getD_eq_getElem?_getD, List.getElem?_eq_getElem hj']
        exact List.getElem_mem _
      have hg : (if shared_offset slot k idx then g
                 else set_cell g p.1 p.2 Cell.empty)
            (rest.getD j' (0, 0)).1 (rest.getD j' (0, 0)).2 =
          g (rest.getD j' (0, 0)).1 (rest.getD j' (0, 0)).2 := by
        split
        · rfl
        · refine set_cell_other _ _ _ _ _ _ ?_
          intro hrc
          apply hpmem
          have : rest.getD j' (0, 0) = (p.1, p.2) :=
            Prod.ext hrc.1 hrc.2
          rw [← this]
          exact hmem
      rw [hg]

/-! ## Dictionary lookup lemmas -/

theorem lookup_mem {l : List (Nat × List Word)} {a : Nat} {b : List Word}
    (h : l.lookup a = some b) : (a, b) ∈ l := by
  induction l with
  | nil => simp [List.lookup] at h
  | cons p rest ih =>
    obtain ⟨k, v⟩ := p
    rw [List.lookup] at h
    split at h
    · next hk =>
      cases h
      rw [show a = k from by exact_mod_cast eq_of_beq hk]
      exact List.mem_cons_self _ _
    · exact List.mem_cons_of_mem _ (ih h)

theorem lookup_none_iff {l : List (Nat × List Word)} {a : Nat} :
    l.lookup a = none ↔ (l.map Prod.fst).contains a = false := by
  induction l with
  | nil => simp [List.lookup]
  | cons p rest ih =>
    obtain ⟨k, v⟩ := p
    rw [List.lookup]
    split
    · next hk =>
      simp only [List.map_cons, List.contains_cons]
      simp [hk]
    · next hk =>
      simp only [List.map_cons, List.contains_cons]
      rw [Bool.or_eq_false_iff]
      constructor
      · intro h
        exact ⟨by simpa using hk, ih.mp h⟩
      · intro h
        exact ih.mpr h.2

/-- Membership in one bucket of the built index. -/
theorem bucket_mem_iff (wbl : List (Nat × List Word))
    (hchars : ∀ pr ∈ wbl, ∀ w ∈ pr.2, ∀ c ∈ w, c ∈ LETTERS)
    (L p : Nat) (c : Char)
    (hL : (wbl.map Prod.fst).contains L = true) (w : Word) :
    w ∈ (build_letter_index wbl).buckets L p c ↔
      w ∈ (wbl.lookup L).getD [] ∧ w.get? p = some c := by
  show w ∈ (if (wbl.map Prod.fst).contains L && LETTERS.contains c then
      ((wbl.lookup L).getD []).filter (fun w => w.get? p == some c)
    else []) ↔ _
  rw [hL, Bool.true_and]
  cases hc : LETTERS.contains c with
  | true =>
    rw [if_pos rfl, List.mem_filter]
    simp
  | false =>
    rw [if_neg (by simp)]
    simp only [List.not_mem_nil, false_iff, not_and]
    intro hw hget
    cases hlk : wbl.lookup L with
    | none => rw [hlk] at hw; simp at hw
    | some ws =>
      rw [hlk] at hw
      have hcw : c ∈ w := List.get?_mem hget
      have : c ∈ LETTERS := hchars (L, ws) (lookup_mem hlk) w hw c hcw
      rw [show LETTERS.contains c = true from List.elem_iff.mpr this] at hc
      exact Bool.noConfusion hc

/-- Specification of the pattern-constraint fold of
`get_matching_words_fast`. -/
theorem matching_fold_spec (full : List Word) (bucket : Nat → Char → List Word)
    (hbucket : ∀ p c w, w ∈ bucket p c ↔ w ∈ full ∧ w.get? p = some c)
    (l : List (Nat × Char)) (w : Word) :
    w ∈ ((l.foldl
      (fun (result : Option (List Word)) pc =>
        if pc.2 != '_' then
          match result with
          | none => some (bucket pc.1 pc.2)
          | some r => some (r.filter (fun w => (bucket pc.1 pc.2).contains w))
        else result) none).getD full) ↔
      (w ∈ full ∧ ∀ pc ∈ l, pc.2 ≠ '_' → w.get? pc.1 = some pc.2) := by
  induction l using List.reverseRecOn with
  | nil => simp
  | append_singleton l' pc ih =>
    rw [List.foldl_append, List.foldl_cons, List.foldl_nil]
    by_cases hpc : pc.2 = '_'
    · rw [if_neg (by simp [hpc])]
      rw [ih]
      constructor
      · rintro ⟨h1, h2⟩
        refine ⟨h1, ?_⟩
        intro x hx
        rcases List.mem_append.mp hx with hx | hx
        · exact h2 x hx
        · intro hne
          rw [List.mem_singleton.mp hx] at hne
          exact absurd hpc hne
      · rintro ⟨h1, h2⟩
        exact ⟨h1, fun x hx => h2 x (List.mem_append.mpr (Or.inl hx))⟩
    · rw [if_pos (by simp [hpc])]
      cases hacc : l'.foldl
        (fun (result : Option (List Word)) pc =>
          if pc.2 != '_' then
            match result with
            | none => some (bucket pc.1 pc.2)
            | some r => some (r.filter (fun w => (bucket pc.1 pc.2).contains w))
          else result) none with
      | none =>
        rw [hacc] at ih
        simp only [Option.getD_none] at ih
        simp only [Option.getD_some]
        rw [hbucket]
        constructor
        · rintro ⟨h1, h2⟩
          refine ⟨h1, ?_⟩
          intro x hx
          rcases List.mem_append.mp hx with hx | hx
          · exact (ih.mp h1).2 x hx
          · intro _
            rw [List.mem_singleton.mp hx]
            exact h2
        · rintro ⟨h1, h2⟩
          exact ⟨h1, h2 pc (List.mem_append.mpr (Or.inr (List.mem_singleton.mpr rfl))) hpc⟩
      | some r =>
        rw [hacc] at ih
        simp only [Option.getD_some] at ih ⊢
        rw [List.mem_filter]
        constructor
        · rintro ⟨hr, hb⟩
          have hb' := (hbucket pc.1 pc.2 w).mp (List.elem_iff.mp hb)
          refine ⟨hb'.1, ?_⟩
          intro x hx
          rcases List.mem_append.mp hx with hx | hx
          · exact (ih.mp hr).2 x hx
          · intro _
            rw [List.mem_singleton.mp hx]
            exact hb'.2
        · rintro ⟨h1, h2⟩
          refine ⟨ih.mpr ⟨h1, fun x hx hne => h2 x (List.mem_append.mpr (Or.inl hx)) hne⟩, ?_⟩
          exact List.elem_iff.mpr ((hbucket pc.1 pc.2 w).mpr
            ⟨h1, h2 pc (List.mem_append.mpr (Or.inr (List.mem_singleton.mpr rfl))) hpc⟩)

/-- The candidate lookup is exact: a word matches a slot exactly when
it is a dictionary word of the slot's length agreeing with the current
pattern at every fixed position and is not already used. -/
theorem get_matching_words_fast_iff (env : Env) (st : SolverState)
    (slot : Slot) (w : Word)
    (hidx : env.letter_index = build_letter_index env.words_by_length)
    (hchars : ∀ pr ∈ env.words_by_length, ∀ w ∈ pr.2, ∀ c ∈ w, c ∈ LETTERS) :
    w ∈ get_matching_words_fast env st slot ↔
      MatchSpec env st.grid st.used_words slot w := by
  simp only [get_matching_words_fast, get_current_pattern]
  cases hcont : env.letter_index.keys.contains slot.length with
  | false =>
    have hnone : env.words_by_length.lookup slot.length = none := by
      rw [lookup_none_iff]
      rw [hidx] at hcont
      exact hcont
    simp [hcont, MatchSpec, hnone]
  | true =>
    have hL : (env.words_by_length.map Prod.fst).contains slot.length = true := by
      rw [hidx] at hcont
      exact hcont
    simp only [hcont, if_true]
    rw [List.mem_filter]
    have hfold := matching_fold_spec
      ((env.words_by_length.lookup slot.length).getD [])
      (env.letter_index.buckets slot.length)
      (fun p c w => by
        rw [hidx]
        exact bucket_mem_iff env.words_by_length hchars slot.length p c hL w)
      (grid_pattern st.grid slot).enum w
    rw [hfold, MatchSpec]
    have hused : (!st.used_words.contains w) = true ↔ w ∉ st.used_words := by
      simp [List.contains, List.elem_iff]
    rw [hused, and_assoc]

/-- The builder inserts each dictionary word into the bucket of every
one of its (position, letter) pairs. -/
theorem build_letter_index_insert (wbl : List (Nat × List Word))
    (hchars : ∀ pr ∈ wbl, ∀ w ∈ pr.2, ∀ c ∈ w, c ∈ LETTERS)
    (L : Nat) (ws : List Word) (hlk : wbl.lookup L = some ws)
    (w : Word) (hw : w ∈ ws) (p : Nat) (c : Char)
    (hget : w.get? p = some c) :
    w ∈ (build_letter_index wbl).buckets L p c := by
  have hL : (wbl.map Prod.fst).contains L = true := by
    cases hc : (wbl.map Prod.fst).contains L with
    | true => rfl
    | false => rw [lookup_none_iff.mpr hc] at hlk; exact Option.noConfusion hlk
  rw [bucket_mem_iff wbl hchars L p c hL w]
  exact ⟨by rw [hlk]; exact hw, hget⟩

/-- C3: the letter index contains every word of the length-`L` list in
each of the buckets given by its (position, letter) pairs, and
`get_matching_words_fast` returns precisely the dictionary words of the
slot's length that agree with the slot's current pattern at every
non-wildcard position (the full length-`L` list when the pattern is all
wildcards), minus the used-word set. -/
theorem letter_index_exactness :
    (∀ (wbl : List (Nat × List Word)),
      (∀ pr ∈ wbl, ∀ w ∈ pr.2, ∀ c ∈ w, c ∈ LETTERS) →
      ∀ L ws, wbl.lookup L = some ws → ∀ w ∈ ws, ∀ p c,
        w.get? p = some c → w ∈ (build_letter_index wbl).buckets L p c) ∧
    (∀ (env : Env) (st : SolverState) (slot : Slot) (w : Word),
      env.letter_index = build_letter_index env.words_by_length →
      (∀ pr ∈ env.words_by_length, ∀ w ∈ pr.2, ∀ c ∈ w, c ∈ LETTERS) →
      (w ∈ get_matching_words_fast env st slot ↔
        MatchSpec env st.grid st.used_words slot w)) :=
  ⟨fun wbl hchars L ws hlk w hw p c hget =>
    build_letter_index_insert wbl hchars L ws hlk w hw p c hget,
   fun env st slot w hidx hchars =>
    get_matching_words_fast_iff env st slot w hidx hchars⟩

/-! ## Pattern and cell bridging lemmas -/

theorem getD_mem {α : Type} (l : List α) (j : Nat) (d : α)
    (h : j < l.length) : l.getD j d ∈ l := by
  rw [List.getD_eq_getElem?_getD, List.getElem?_eq_getElem h]
  exact List.getElem_mem _

theorem grid_pattern_length (g : Nat → Nat → Cell) (slot : Slot) :
    (grid_pattern g slot).length = slot.positions.length := by
  simp [grid_pattern]

theorem grid_pattern_getD (g : Nat → Nat → Cell) (slot : Slot) (j : Nat)
    (hj : j < slot.positions.length) :
    (grid_pattern g slot).getD j '_' =
      (match g (slot.positions.getD j (0, 0)).1
         (slot.positions.getD j (0, 0)).2 with
       | Cell.letter ch => ch
       | _ => '_') := by
  rw [grid_pattern, List.getD_eq_getElem?_getD, List.getElem?_map,
    List.getD_eq_getElem?_getD, List.getElem?_eq_getElem hj]
  simp

/-- If the grid reads back the fully-filled word `w` along a slot, each
of the slot's cells holds the corresponding letter of `w`. -/
theorem pattern_cells (g : Nat → Nat → Cell) (slot : Slot) (w : Word)
    (hpat : grid_pattern g slot = w) (hno : '_' ∉ w)
    (j : Nat) (hj : j < slot.positions.length) :
    g (slot.positions.getD j (0, 0)).1 (slot.positions.getD j (0, 0)).2 =
      Cell.letter (w.getD j '_') := by
  have hwlen : w.length = slot.positions.length := by
    rw [← hpat, grid_pattern_length]
  have h1 := grid_pattern_getD g slot j hj
  rw [hpat] at h1
  cases hcell : g (slot.positions.getD j (0, 0)).1
      (slot.positions.getD j (0, 0)).2 with
  | letter ch => rw [hcell] at h1; rw [h1]
  | empty =>
    rw [hcell] at h1
    simp only [] at h1
    have h2 : List.getD w j '_' = '_' := h1
    exact absurd (h2 ▸ getD_mem w j '_' (hwlen ▸ hj)) hno
  | block =>
    rw [hcell] at h1
    have h2 : List.getD w j '_' = '_' := h1
    exact absurd (h2 ▸ getD_mem w j '_' (hwlen ▸ hj)) hno

/-- A word satisfying `MatchSpec` agrees with every letter already on
the grid along the slot. -/
theorem matchspec_agree (env : Env) (g : Nat → Nat → Cell)
    (used : List Word) (slot : Slot) (w : Word)
    (hms : MatchSpec env g used slot w)
    (j : Nat) (hj : j < slot.positions.length) (ch : Char) (hch : ch ≠ '_')
    (hcell : g (slot.positions.getD j (0, 0)).1
      (slot.positions.getD j (0, 0)).2 = Cell.letter ch) :
    w.get? j = some ch := by
  have hplen : j < (grid_pattern g slot).length := by
    rw [grid_pattern_length]; exact hj
  have hpj : (grid_pattern g slot).getD j '_' = ch := by
    rw [grid_pattern_getD g slot j hj, hcell]
  have henum : (j, ch) ∈ (grid_pattern g slot).enum := by
    apply List.get?_mem (n := j)
    rw [List.get?_eq_getElem?, List.getElem?_enum,
      List.getElem?_eq_getElem hplen]
    rw [List.getD_eq_getElem?_getD, List.getElem?_eq_getElem hplen] at hpj
    simp only [Option.getD_some] at hpj
    rw [hpj]
    rfl
  exact hms.2.1 (j, ch) henum hch

/-! ## The backtracking round trip -/

/-- Removing a word right after placing it restores the grid exactly,
provided (as the search maintains) the slot's cells are never blocks,
its already-filled cells are exactly those recorded as intersections
with earlier slots, and the word agrees with the filled cells. -/
theorem place_remove_grid (slot : Slot) (k : Nat) (g : Nat → Nat → Cell)
    (word : Word)
    (hnd : slot.positions.Nodup)
    (hA : ∀ j, j < slot.positions.length →
      g (slot.positions.getD j (0, 0)).1 (slot.positions.getD j (0, 0)).2 ≠
        Cell.block)
    (hC : ∀ j, j < slot.positions.length →
      (∃ ch, g (slot.positions.getD j (0, 0)).1
        (slot.positions.getD j (0, 0)).2 = Cell.letter ch) →
      shared_offset slot k j = true)
    (hB : ∀ j, j < slot.positions.length → shared_offset slot k j = true →
      g (slot.positions.getD j (0, 0)).1 (slot.positions.getD j (0, 0)).2 =
        Cell.letter (word.getD j 'A')) :
    remove_go slot k 0 slot.positions
      (place_go word 0 slot.positions g) = g := by
  funext r c
  by_cases hmem : (r, c) ∈ slot.positions
  · obtain ⟨j, hj, hjeq⟩ := List.mem_iff_getElem.mp hmem
    have hgd : slot.positions.getD j (0, 0) = (r, c) := by
      rw [List.getD_eq_getElem?_getD, List.getElem?_eq_getElem hj, hjeq]
      rfl
    have h1 := remove_go_get slot k slot.positions 0
      (place_go word 0 slot.positions g) j hnd hj
    rw [Nat.zero_add, hgd] at h1
    simp only [] at h1
    rw [h1]
    cases hsh : shared_offset slot k j with
    | true =>
      rw [if_pos rfl]
      have h2 := place_go_get word slot.positions 0 g j hnd hj
      rw [Nat.zero_add, hgd] at h2
      simp only [] at h2
      rw [h2]
      have h3 := hB j hj hsh
      rw [hgd] at h3
      exact h3.symm
    | false =>
      rw [if_neg (by simp)]
      have hnl : ¬ ∃ ch, g r c = Cell.letter ch := by
        intro hex
        have h4 := hC j hj (by rw [hgd]; exact hex)
        rw [h4] at hsh
        exact Bool.noConfusion hsh
      have hnb : g r c ≠ Cell.block := by
        have h5 := hA j hj
        rw [hgd] at h5
        exact h5
      cases hg : g r c with
      | empty => rfl
      | block => exact absurd hg hnb
      | letter ch => exact absurd ⟨ch, hg⟩ hnl
  · rw [remove_go_not_mem _ _ _ _ _ _ _ hmem,
      place_go_not_mem _ _ _ _ _ _ hmem]

/-- In an invariant state, a cell of the level-`i` slot that is already
filled lies at an offset recorded as shared with an earlier slot. -/
theorem filled_implies_shared (env : Env) (i : Nat) (g : Nat → Nat → Cell)
    (used : List Word) (hi : i < env.slots.length)
    (hinv : SearchInv env i g used) :
    ∀ j, j < (env.slots.getD i default).positions.length →
      (∃ ch, g ((env.slots.getD i default).positions.getD j (0, 0)).1
        ((env.slots.getD i default).positions.getD j (0, 0)).2 =
          Cell.letter ch) →
      shared_offset (env.slots.getD i default) i j = true := by
  intro j hj hex
  have h1 := hinv.shared_only i (Nat.le_refl i) hi j hj hex
  rw [shared_offset, List.any_eq_true]
  obtain ⟨t, ht, h2, h3⟩ := h1
  exact ⟨t, ht, by simp [h2, h3]⟩

/-- In an invariant state, a matching candidate agrees with the grid at
every offset of the level-`i` slot that is shared with an earlier
slot. -/
theorem shared_implies_word_letter (env : Env) (i : Nat)
    (g : Nat → Nat → Cell) (used : List Word) (w : Word)
    (hwf : EnvWF env) (hi : i < env.slots.length)
    (hinv : SearchInv env i g used)
    (hms : MatchSpec env g used (env.slots.getD i default) w) :
    ∀ j, j < (env.slots.getD i default).positions.length →
      shared_offset (env.slots.getD i default) i j = true →
      g ((env.slots.getD i default).positions.getD j (0, 0)).1
        ((env.slots.getD i default).positions.getD j (0, 0)).2 =
        Cell.letter (w.getD j 'A') := by
  intro j hj hsh
  rw [shared_offset, List.any_eq_true] at hsh
  obtain ⟨t, ht, hpt⟩ := hsh
  simp only [Bool.and_eq_true, decide_eq_true_eq, beq_iff_eq] at hpt
  have hs := hwf.inters_sound i hi t ht
  obtain ⟨ht1len, htm, htt, hposeq⟩ := hs
  rw [hpt.2] at hposeq
  have hfill := hinv.filled t.1 hpt.1 ht1len
  have hcell := pattern_cells g (env.slots.getD t.1 default)
    (grid_pattern g (env.slots.getD t.1 default)) rfl
    hfill.2.1 t.2.2 htt
  have hchmem : (grid_pattern g (env.slots.getD t.1 default)).getD
      t.2.2 '_' ∈ grid_pattern g (env.slots.getD t.1 default) :=
    getD_mem _ _ _ (by rw [grid_pattern_length]; exact htt)
  have hchne : (grid_pattern g (env.slots.getD t.1 default)).getD
      t.2.2 '_' ≠ '_' :=
    fun hcontr => hfill.2.1 (hcontr ▸ hchmem)
  have hagree := matchspec_agree env g used (env.slots.getD i default) w
    hms j hj _ hchne (by rw [hposeq]; exact hcell)
  have hgetD : w.getD j 'A' =
      (grid_pattern g (env.slots.getD t.1 default)).getD t.2.2 '_' := by
    rw [List.getD_eq_getElem?_getD, ← List.get?_eq_getElem?, hagree]
    rfl
  rw [hposeq, hcell, hgetD]

/-- Round-trip core on grid and used-word set: placing then removing a
matching candidate restores both exactly, in any state satisfying the
search invariant at the slot's level. -/
theorem place_remove_core (env : Env) (i : Nat) (slot : Slot) (w : Word)
    (g : Nat → Nat → Cell) (used : List Word)
    (hwf : EnvWF env) (hi : i < env.slots.length)
    (hslot : slot = env.slots.getD i default)
    (hinv : SearchInv env i g used)
    (hms : MatchSpec env g used slot w) :
    remove_go slot i 0 slot.positions (place_go w 0 slot.positions g) = g ∧
    (if used.contains w then used else w :: used).erase w = used := by
  have hmem : slot ∈ env.slots := by
    rw [hslot]; exact getD_mem env.slots i default hi
  have hnd : slot.positions.Nodup := hwf.positions_nodup slot hmem
  have hA : ∀ j, j < slot.positions.length →
      g (slot.positions.getD j (0, 0)).1
        (slot.positions.getD j (0, 0)).2 ≠ Cell.block := by
    intro j hj
    exact hinv.no_block slot hmem _ (getD_mem _ j (0, 0) hj)
  have hC := filled_implies_shared env i g used hi hinv
  have hB := shared_implies_word_letter env i g used w hwf hi hinv
    (hslot ▸ hms)
  rw [← hslot] at hC hB
  refine ⟨place_remove_grid slot i g w hnd hA hC hB, ?_⟩
  have hnc : used.contains w = false := by
    cases hc : used.contains w with
    | false => rfl
    | true =>
      exact absurd (List.elem_iff.mp (by simpa [List.contains] using hc))
        hms.2.2
  rw [hnc]
  simp only [Bool.false_eq_true, if_false]
  exact List.erase_cons_head w used

/-! ## State-preservation lemmas for the probing steps -/

theorem has_any_candidate_snd (env : Env) (st : SolverState) (slot : Slot) :
    (has_any_candidate env st slot).2 = { st with tick := st.tick + 1 } := by
  rw [show has_any_candidate env st slot =
      (if decide (TIMEOUT_SECONDS < env.clock st.tick - env.start_time)
       then (false, { st with tick := st.tick + 1 })
       else (!(get_matching_words_fast env
                 { st with tick := st.tick + 1 } slot).isEmpty,
             { st with tick := st.tick + 1 })) from rfl]
  split <;> rfl

theorem has_any_candidate_eta (env : Env) (st : SolverState) (slot : Slot) :
    has_any_candidate env st slot =
      ((has_any_candidate env st slot).1, { st with tick := st.tick + 1 }) := by
  rw [← has_any_candidate_snd env st slot]

theorem forward_check_go_state (env : Env) (slot : Slot)
    (l : List (Nat × Nat × Nat)) :
    ∀ st : SolverState,
      ((forward_check_go env slot l st).2.grid = st.grid) ∧
      ((forward_check_go env slot l st).2.used_words = st.used_words) ∧
      ((forward_check_go env slot l st).2.attempts = st.attempts) := by
  induction l with
  | nil => intro st; exact ⟨rfl, rfl, rfl⟩
  | cons t rest ih =>
    intro st
    simp only [forward_check_go]
    rw [has_any_candidate_eta env st (env.slots.getD t.1 default)]
    split
    · split
      · exact ih _
      · exact ⟨rfl, rfl, rfl⟩
    · exact ih st

theorem get_candidates_snd (env : Env) (st : SolverState) (slot : Slot) :
    ((get_candidates env st slot).2.grid = st.grid) ∧
    ((get_candidates env st slot).2.used_words = st.used_words) ∧
    ((get_candidates env st slot).2.attempts = st.attempts) := by
  simp only [get_candidates]
  split
  · exact ⟨rfl, rfl, rfl⟩
  · exact ⟨rfl, rfl, rfl⟩

theorem insert_desc_mem (x y : Word × ℚ) (l : List (Word × ℚ))
    (h : y ∈ insert_desc x l) : y = x ∨ y ∈ l := by
  induction l with
  | nil => simpa [insert_desc] using h
  | cons z rest ih =>
    rw [insert_desc] at h
    split at h
    · rcases List.mem_cons.mp h with h | h
      · exact Or.inl h
      · exact Or.inr h
    · rcases List.mem_cons.mp h with h | h
      · exact Or.inr (h ▸ List.mem_cons_self _ _)
      · rcases ih h with h | h
        · exact Or.inl h
        · exact Or.inr (List.mem_cons_of_mem _ h)

theorem sort_desc_mem (l : List (Word × ℚ)) (y : Word × ℚ)
    (h : y ∈ sort_desc l) : y ∈ l := by
  rw [sort_desc] at h
  suffices haux : ∀ (l' : List (Word × ℚ)) (acc : List (Word × ℚ)),
      y ∈ l'.foldl (fun acc x => insert_desc x acc) acc →
      y ∈ acc ∨ y ∈ l' by
    rcases haux l [] h with h | h
    · simp at h
    · exact h
  intro l'
  induction l' with
  | nil => intro acc h'; exact Or.inl h'
  | cons z rest ih =>
    intro acc h'
    rw [List.foldl_cons] at h'
    rcases ih _ h' with h' | h'
    · rcases insert_desc_mem z y acc h' with h' | h'
      · exact Or.inr (h' ▸ List.mem_cons_self _ _)
      · exact Or.inl h'
    · exact Or.inr (List.mem_cons_of_mem _ h')

/-- Every candidate returned by `get_candidates` is in the matching
set. -/
theorem get_candidates_subset (env : Env) (st : SolverState) (slot : Slot)
    (henum : ∀ l : List Word, ∀ w ∈ env.enum l, w ∈ l) :
    ∀ w ∈ (get_candidates env st slot).1,
      w ∈ get_matching_words_fast env st slot := by
  intro w hw
  simp only [get_candidates] at hw
  split at hw
  · simp at hw
  · have h1 : w ∈ (sort_desc
        (((env.enum (get_matching_words_fast env st slot)).map
          (fun w => (w, calculate_crossability_score w))).enum.map
          (fun is => (is.2.1, is.2.2 + env.rand (st.randk + is.1))))).map
        Prod.fst := List.mem_of_mem_take hw
    obtain ⟨y, hy, hyw⟩ := List.mem_map.mp h1
    have h2 := sort_desc_mem _ _ hy
    obtain ⟨is, his, hisy⟩ := List.mem_map.mp h2
    obtain ⟨i, x⟩ := is
    have h3 : ((env.enum (get_matching_words_fast env st slot)).map
        (fun w => (w, calculate_crossability_score w)))[i]? = some x :=
      List.mk_mem_enum_iff_getElem?.mp his
    have h4 : x ∈ (env.enum (get_matching_words_fast env st slot)).map
        (fun w => (w, calculate_crossability_score w)) :=
      List.get?_mem (by rw [List.get?_eq_getElem?]; exact h3)
    obtain ⟨w', hw', hwx⟩ := List.mem_map.mp h4
    have hww : w = w' := by rw [← hyw, ← hisy, ← hwx]
    rw [hww]
    exact henum _ _ hw' 

/-! ## Helper lemmas for the placement invariant -/

theorem getD_of_mem {α : Type} (l : List α) (a d : α) (h : a ∈ l) :
    ∃ j, j < l.length ∧ l.getD j d = a := by
  obtain ⟨j, hj, hjeq⟩ := List.mem_iff_getElem.mp h
  refine ⟨j, hj, ?_⟩
  rw [List.getD_eq_getElem?_getD, List.getElem?_eq_getElem hj, hjeq]
  rfl

/-- Facts about a word drawn from the dictionary. -/
theorem dict_word_facts (wbl : List (Nat × List Word)) (L : Nat) (w : Word)
    (hlen : ∀ pr ∈ wbl, ∀ w ∈ pr.2, w.length = pr.1)
    (hchars : ∀ pr ∈ wbl, ∀ w ∈ pr.2, ∀ c ∈ w, c ∈ LETTERS)
    (hdict : w ∈ (wbl.lookup L).getD []) :
    w.length = L ∧ ∀ c ∈ w, c ∈ LETTERS := by
  cases hlk : wbl.lookup L with
  | none => rw [hlk] at hdict; simp at hdict
  | some ws =>
    rw [hlk] at hdict
    have hm := lookup_mem hlk
    exact ⟨hlen _ hm w hdict, fun c hc => hchars _ hm w hdict c hc⟩

theorem underscore_not_letter : '_' ∉ LETTERS := by decide

theorem grid_pattern_congr (g g' : Nat → Nat → Cell) (slot : Slot)
    (h : ∀ p ∈ slot.positions, g' p.1 p.2 = g p.1 p.2) :
    grid_pattern g' slot = grid_pattern g slot := by
  unfold grid_pattern
  exact List.map_congr_left (fun p hp => by rw [h p hp])

theorem grid_pattern_eq (g : Nat → Nat → Cell) (slot : Slot) (w : Word)
    (hlen : w.length = slot.positions.length)
    (hcells : ∀ j, j < slot.positions.length →
      g (slot.positions.getD j (0, 0)).1 (slot.positions.getD j (0, 0)).2 =
        Cell.letter (w.getD j 'A')) :
    grid_pattern g slot = w := by
  apply List.ext_getElem
  · rw [grid_pattern_length, hlen]
  · intro j h1 h2
    have hj : j < slot.positions.length := by
      rw [grid_pattern_length] at h1; exact h1
    have hD := grid_pattern_getD g slot j hj
    rw [hcells j hj] at hD
    rw [List.getD_eq_getElem?_getD, List.getElem?_eq_getElem h1] at hD
    simp only [Option.getD_some] at hD
    rw [hD, List.getD_eq_getElem?_getD, List.getElem?_eq_getElem h2]
    rfl

/-- Placing a matching candidate into the level-`i` slot advances the
search invariant to level `i + 1`. -/
theorem place_inv (env : Env) (i : Nat) (w : Word) (g : Nat → Nat → Cell)
    (used : List Word)
    (hwf : EnvWF env) (hi : i < env.slots.length)
    (hinv : SearchInv env i g used)
    (hms : MatchSpec env g used (env.slots.getD i default) w) :
    SearchInv env (i + 1)
      (place_go w 0 (env.slots.getD i default).positions g) (w :: used) := by
  have hmem : env.slots.getD i default ∈ env.slots :=
    getD_mem env.slots i default hi
  have hnd := hwf.positions_nodup _ hmem
  have hfacts := dict_word_facts env.words_by_length
    (env.slots.getD i default).length w hwf.wbl_len hwf.wbl_chars hms.1
  have hwlen : w.length = (env.slots.getD i default).positions.length :=
    hfacts.1.trans (hwf.length_eq _ hmem)
  have hno_w : '_' ∉ w := fun hu => underscore_not_letter (hfacts.2 '_' hu)
  have hF2 : ∀ j, j < (env.slots.getD i default).positions.length →
      place_go w 0 (env.slots.getD i default).positions g
        ((env.slots.getD i default).positions.getD j (0, 0)).1
        ((env.slots.getD i default).positions.getD j (0, 0)).2 =
        Cell.letter (w.getD j 'A') := by
    intro j hj
    have h := place_go_get w (env.slots.getD i default).positions 0 g j hnd hj
    rwa [Nat.zero_add] at h
  have hF1 := place_go_not_mem w (env.slots.getD i default).positions
  have hpat_new : grid_pattern
      (place_go w 0 (env.slots.getD i default).positions g)
      (env.slots.getD i default) = w :=
    grid_pattern_eq _ _ w hwlen hF2
  have hC := filled_implies_shared env i g used hi hinv
  have hB := shared_implies_word_letter env i g used w hwf hi hinv hms
  have hpres : ∀ j, j < i → j < env.slots.length →
      grid_pattern (place_go w 0 (env.slots.getD i default).positions g)
        (env.slots.getD j default) =
      grid_pattern g (env.slots.getD j default) := by
    intro j hji hjlen
    apply grid_pattern_congr
    intro p hp
    by_cases hpmem : p ∈ (env.slots.getD i default).positions
    · obtain ⟨m, hm, hmeq⟩ := getD_of_mem _ p (0, 0) hpmem
      have hold := hinv.filled j hji hjlen
      have hfilledp : ∃ ch, g p.1 p.2 = Cell.letter ch := by
        obtain ⟨t', ht', hteq⟩ := getD_of_mem _ p (0, 0) hp
        have hc := pattern_cells g (env.slots.getD j default) _ rfl
          hold.2.1 t' ht'
        rw [hteq] at hc
        exact ⟨_, hc⟩
      have hsh := hC m hm (by rw [hmeq]; exact hfilledp)
      have hBv := hB m hm hsh
      rw [← hmeq, hF2 m hm, hBv]
    · exact hF1 0 g p.1 p.2 hpmem
  refine ⟨?_, ?_, ?_, ?_⟩
  · intro s hs p hp
    by_cases hpmem : p ∈ (env.slots.getD i default).positions
    · obtain ⟨m, hm, hmeq⟩ := getD_of_mem _ p (0, 0) hpmem
      rw [← hmeq, hF2 m hm]
      simp
    · rw [hF1 0 g p.1 p.2 hpmem]
      exact hinv.no_block s hs p hp
  · intro j hj hjlen
    by_cases hji : j < i
    · rw [hpres j hji hjlen]
      have hold := hinv.filled j hji hjlen
      exact ⟨hold.1, hold.2.1, List.mem_cons_of_mem _ hold.2.2⟩
    · have hjeq : j = i := by omega
      subst hjeq
      rw [hpat_new]
      exact ⟨hms.1, hno_w, List.mem_cons_self _ _⟩
  · intro j1 j2 h12 hj2 hj2len
    by_cases hj2i : j2 < i
    · rw [hpres j1 (by omega) (by omega), hpres j2 hj2i hj2len]
      exact hinv.distinct j1 j2 h12 hj2i hj2len
    · have hjeq : j2 = i := by omega
      subst hjeq
      rw [hpat_new, hpres j1 h12 (by omega)]
      intro hcontra
      exact hms.2.2 (hcontra ▸ (hinv.filled j1 h12 (by omega)).2.2)
  · intro k hk1 hk2 idx hidx hfilled
    by_cases hpmem : (env.slots.getD k default).positions.getD idx (0, 0) ∈
        (env.slots.getD i default).positions
    · obtain ⟨m, hm, hmeq⟩ := getD_of_mem _ _ (0, 0) hpmem
      have hcomp := hwf.inters_complete k hk2 i hi (by omega) idx hidx m hm
        hmeq.symm
      exact ⟨(i, idx, m), hcomp, by omega, rfl⟩
    · have hold : ∃ ch,
          g ((env.slots.getD k default).positions.getD idx (0, 0)).1
            ((env.slots.getD k default).positions.getD idx (0, 0)).2 =
            Cell.letter ch := by
        obtain ⟨ch, hch⟩ := hfilled
        refine ⟨ch, ?_⟩
        rw [← hF1 0 g ((env.slots.getD k default).positions.getD idx (0, 0)).1
          ((env.slots.getD k default).positions.getD idx (0, 0)).2 hpmem]
        exact hch
      obtain ⟨t, ht, ht1, ht2⟩ :=
        hinv.shared_only k (by omega) hk2 idx hidx hold
      exact ⟨t, ht, by omega, ht2⟩

/-- At the end of the slot order, the search invariant makes the whole
grid sound. -/
theorem sound_of_inv (env : Env) (i : Nat) (g : Nat → Nat → Cell)
    (used : List Word) (hwf : EnvWF env) (hlen : env.slots.length ≤ i)
    (hinv : SearchInv env i g used) : sound_grid env g := by
  constructor
  · intro j hj
    have hf := hinv.filled j (lt_of_lt_of_le hj hlen) hj
    refine ⟨hf.1, ?_⟩
    rw [grid_pattern_length]
    exact (hwf.length_eq _ (getD_mem _ j _ hj)).symm
  · intro j1 j2 h12 hj2
    exact hinv.distinct j1 j2 h12 (lt_of_lt_of_le hj2 hlen) hj2

/-- Main lemma for the candidate loop: under the search invariant, a
failing run restores grid and used words, and a successful run yields a
sound grid — given that the continuation (the recursive `solve` call)
has the same property one level deeper. -/
theorem try_words_main (env : Env) (i : Nat)
    (next : SolverState → Bool × SolverState)
    (hwf : EnvWF env) (hi : i < env.slots.length)
    (hnext : ∀ s s' b, SearchInv env (i + 1) s.grid s.used_words →
      next s = (b, s') →
      (b = false → s'.grid = s.grid ∧ s'.used_words = s.used_words) ∧
      (b = true → sound_grid env s'.grid)) :
    ∀ (ws : List Word) (st st' : SolverState) (b : Bool),
      SearchInv env i st.grid st.used_words →
      (∀ w ∈ ws, MatchSpec env st.grid st.used_words
        (env.slots.getD i default) w) →
      try_words env next (env.slots.getD i default) ws st = (b, st') →
      (b = false → st'.grid = st.grid ∧ st'.used_words = st.used_words) ∧
      (b = true → sound_grid env st'.grid) := by
  intro ws
  induction ws with
  | nil =>
    intro st st' b hinv hws heq
    rw [try_words] at heq
    injection heq with h1 h2
    subst h1
    subst h2
    exact ⟨fun _ => ⟨rfl, rfl⟩, fun h => Bool.noConfusion h⟩
  | cons w rest ih =>
    intro st st' b hinv hws heq
    simp only [try_words] at heq
    have hmsw := hws w (List.mem_cons_self _ _)
    have hkeq : env.slots.indexOf (env.slots.getD i default) = i := by
      rw [List.getD_eq_getElem?_getD, List.getElem?_eq_getElem hi]
      exact List.indexOf_getElem hwf.slots_nodup i hi
    have hcore := place_remove_core env i (env.slots.getD i default) w
      st.grid st.used_words hwf hi rfl hinv hmsw
    have hnc : st.used_words.contains w = false := by
      cases hc : st.used_words.contains w with
      | false => rfl
      | true =>
        exact absurd (List.elem_iff.mp (by simpa [List.contains] using hc))
          hmsw.2.2
    have hused1 : (place_word st (env.slots.getD i default) w).used_words =
        w :: st.used_words := by
      show (if st.used_words.contains w then st.used_words
            else w :: st.used_words) = w :: st.used_words
      rw [hnc]
      simp only [Bool.false_eq_true, if_false]
    have hgrid1 : (place_word st (env.slots.getD i default) w).grid =
        place_go w 0 (env.slots.getD i default).positions st.grid := rfl
    have hinv1 : SearchInv env (i + 1)
        (place_word st (env.slots.getD i default) w).grid
        (place_word st (env.slots.getD i default) w).used_words := by
      rw [hused1, hgrid1]
      exact place_inv env i w st.grid st.used_words hwf hi hinv hmsw
    have hrem : ∀ s : SolverState,
        s.grid = place_go w 0 (env.slots.getD i default).positions st.grid →
        s.used_words = w :: st.used_words →
        (remove_word env s (env.slots.getD i default) w).grid = st.grid ∧
        (remove_word env s (env.slots.getD i default) w).used_words =
          st.used_words := by
      intro s hg hu
      constructor
      · show remove_go (env.slots.getD i default)
          (env.slots.indexOf (env.slots.getD i default)) 0
          (env.slots.getD i default).positions s.grid = st.grid
        rw [hkeq, hg]
        exact hcore.1
      · show s.used_words.erase w = st.used_words
        rw [hu]
        exact List.erase_cons_head w st.used_words
    rcases hfc : forward_check env (place_word st (env.slots.getD i default) w)
        (env.slots.getD i default) with ⟨ok, st2⟩
    have hfc2 := forward_check_go_state env (env.slots.getD i default)
      (env.slots.getD i default).intersections
      (place_word st (env.slots.getD i default) w)
    rw [show forward_check_go env (env.slots.getD i default)
        (env.slots.getD i default).intersections
        (place_word st (env.slots.getD i default) w) = (ok, st2)
      from hfc] at hfc2
    obtain ⟨hst2g, hst2u, -⟩ := hfc2
    rw [hfc] at heq
    dsimp only at heq
    have hinv2 : SearchInv env (i + 1) st2.grid st2.used_words := by
      rw [hst2g, hst2u]
      exact hinv1
    cases ok with
    | true =>
      rw [if_pos rfl] at heq
      rcases hnx : next st2 with ⟨bn, st3⟩
      rw [hnx] at heq
      cases bn with
      | true =>
        injection heq with h1 h2
        subst h1
        subst h2
        refine ⟨fun h => Bool.noConfusion h, fun _ => ?_⟩
        exact (hnext st2 st3 true hinv2 hnx).2 rfl
      | false =>
        have hst3 := (hnext st2 st3 false hinv2 hnx).1 rfl
        have hrm := hrem st3 (by rw [hst3.1, hst2g, hgrid1])
          (by rw [hst3.2, hst2u, hused1])
        have hres := ih
          { remove_word env st3 (env.slots.getD i default) w with
            backtracks :=
              (remove_word env st3 (env.slots.getD i default) w).backtracks
                + 1 }
          st' b
          (by
            have h5 : SearchInv env i
                (remove_word env st3 (env.slots.getD i default) w).grid
                (remove_word env st3
                  (env.slots.getD i default) w).used_words := by
              rw [hrm.1, hrm.2]
              exact hinv
            exact h5)
          (fun w' hw' => by
            have h6 : MatchSpec env
                (remove_word env st3 (env.slots.getD i default) w).grid
                (remove_word env st3 (env.slots.getD i default) w).used_words
                (env.slots.getD i default) w' := by
              rw [hrm.1, hrm.2]
              exact hws w' (List.mem_cons_of_mem _ hw')
            exact h6)
          heq
        exact ⟨fun hb => ⟨((hres.1 hb).1).trans hrm.1,
          ((hres.1 hb).2).trans hrm.2⟩, hres.2⟩
    | false =>
      rw [if_neg (by simp)] at heq
      have hrm := hrem st2 (by rw [hst2g, hgrid1]) (by rw [hst2u, hused1])
      have hres := ih
        { remove_word env st2 (env.slots.getD i default) w with
          backtracks :=
            (remove_word env st2 (env.slots.getD i default) w).backtracks
              + 1 }
        st' b
        (by
          have h5 : SearchInv env i
              (remove_word env st2 (env.slots.getD i default) w).grid
              (remove_word env st2
                (env.slots.getD i default) w).used_words := by
            rw [hrm.1, hrm.2]
            exact hinv
          exact h5)
        (fun w' hw' => by
          have h6 : MatchSpec env
              (remove_word env st2 (env.slots.getD i default) w).grid
              (remove_word env st2 (env.slots.getD i default) w).used_words
              (env.slots.getD i default) w' := by
            rw [hrm.1, hrm.2]
            exact hws w' (List.mem_cons_of_mem _ hw')
          exact h6)
        heq
      exact ⟨fun hb => ⟨((hres.1 hb).1).trans hrm.1,
        ((hres.1 hb).2).trans hrm.2⟩, hres.2⟩

/-- Master lemma for `solve`: in an invariant state, a failing run
leaves grid and used-word set exactly as they were, and a successful
run produces a sound grid. -/
theorem solve_main (env : Env) (hwf : EnvWF env) :
    ∀ (n i : Nat) (st st' : SolverState) (b : Bool),
      SearchInv env i st.grid st.used_words →
      solve env n i st = (b, st') →
      (b = false → st'.grid = st.grid ∧ st'.used_words = st.used_words) ∧
      (b = true → sound_grid env st'.grid) := by
  intro n
  induction n with
  | zero =>
    intro i st st' b hinv heq
    rw [solve] at heq
    simp only [time_time] at heq
    split at heq
    · injection heq with h1 h2
      subst h1
      subst h2
      exact ⟨fun _ => ⟨rfl, rfl⟩, fun h => Bool.noConfusion h⟩
    · split at heq
      · injection heq with h1 h2
        subst h1
        subst h2
        exact ⟨fun _ => ⟨rfl, rfl⟩, fun h => Bool.noConfusion h⟩
      · split at heq
        · injection heq with h1 h2
          subst h1
          subst h2
          refine ⟨fun h => Bool.noConfusion h, fun _ => ?_⟩
          next hlen _ =>
            exact sound_of_inv env i st.grid st.used_words hwf hlen hinv
        · injection heq with h1 h2
          subst h1
          subst h2
          exact ⟨fun _ => ⟨rfl, rfl⟩, fun h => Bool.noConfusion h⟩
  | succ n' ih =>
    intro i st st' b hinv heq
    rw [solve] at heq
    simp only [time_time] at heq
    split at heq
    · injection heq with h1 h2
      subst h1
      subst h2
      exact ⟨fun _ => ⟨rfl, rfl⟩, fun h => Bool.noConfusion h⟩
    · split at heq
      · injection heq with h1 h2
        subst h1
        subst h2
        exact ⟨fun _ => ⟨rfl, rfl⟩, fun h => Bool.noConfusion h⟩
      · split at heq
        · injection heq with h1 h2
          subst h1
          subst h2
          refine ⟨fun h => Bool.noConfusion h, fun _ => ?_⟩
          next hlen _ =>
            exact sound_of_inv env i st.grid st.used_words hwf hlen hinv
        · next hnotlen _ =>
          have hi : i < env.slots.length := by omega
          rcases hgc : get_candidates env
              { st with attempts := st.attempts + 1, tick := st.tick + 1 }
              (env.slots.getD i default) with ⟨cands, st2⟩
          rw [hgc] at heq
          dsimp only at heq
          have hsnd := get_candidates_snd env
            { st with attempts := st.attempts + 1, tick := st.tick + 1 }
            (env.slots.getD i default)
          rw [hgc] at hsnd
          obtain ⟨hst2g, hst2u, -⟩ := hsnd
          have hsub := get_candidates_subset env
            { st with attempts := st.attempts + 1, tick := st.tick + 1 }
            (env.slots.getD i default) hwf.enum_sub
          rw [hgc] at hsub
          have hmain := try_words_main env i
            (fun st'' => solve env n' (i + 1) st'') hwf hi
            (fun s s' bb hinv' hnx => ih (i + 1) s s' bb hinv' hnx)
            cands st2 st' b
            (by
              have h5 : SearchInv env i st2.grid st2.used_words := by
                rw [hst2g, hst2u]
                exact hinv
              exact h5)
            (fun w' hw' => by
              have h6 := (get_matching_words_fast_iff env
                { st with attempts := st.attempts + 1, tick := st.tick + 1 }
                (env.slots.getD i default) w' hwf.idx_eq hwf.wbl_chars).mp
                (hsub w' hw')
              have h7 : MatchSpec env st2.grid st2.used_words
                  (env.slots.getD i default) w' := by
                rw [hst2g, hst2u]
                exact h6
              exact h7)
            heq
          refine ⟨fun hb => ?_, hmain.2⟩
          have h8 := hmain.1 hb
          exact ⟨h8.1.trans hst2g, h8.2.trans hst2u⟩

/-! ## Attempt accounting -/

theorem try_words_attempts_mono (env : Env)
    (next : SolverState → Bool × SolverState) (slot : Slot)
    (hmono : ∀ s s' b, next s = (b, s') → s.attempts ≤ s'.attempts) :
    ∀ (ws : List Word) (st : SolverState) (b : Bool) (st' : SolverState),
      try_words env next slot ws st = (b, st') →
      st.attempts ≤ st'.attempts := by
  intro ws
  induction ws with
  | nil =>
    intro st b st' heq
    rw [try_words] at heq
    injection heq with h1 h2
    subst h2
    exact Nat.le_refl _
  | cons w rest ih =>
    intro st b st' heq
    simp only [try_words] at heq
    rcases hfc : forward_check env (place_word st slot w) slot with ⟨ok, st2⟩
    have hfc2 := forward_check_go_state env slot slot.intersections
      (place_word st slot w)
    rw [show forward_check_go env slot slot.intersections
        (place_word st slot w) = (ok, st2) from hfc] at hfc2
    have hatt2 : st2.attempts = st.attempts := hfc2.2.2
    rw [hfc] at heq
    dsimp only at heq
    cases ok with
    | true =>
      rw [if_pos rfl] at heq
      rcases hnx : next st2 with ⟨bn, st3⟩
      rw [hnx] at heq
      have h3 := hmono st2 st3 bn hnx
      cases bn with
      | true =>
        injection heq with h1 h2
        subst h2
        omega
      | false =>
        dsimp only at heq
        have h4 := ih _ b st' heq
        have h5 : st3.attempts ≤ st'.attempts := h4
        omega
    | false =>
      rw [if_neg (by simp)] at heq
      have h4 := ih _ b st' heq
      have h5 : st2.attempts ≤ st'.attempts := h4
      omega

theorem solve_attempts_mono (env : Env) :
    ∀ (n i : Nat) (st : SolverState) (b : Bool) (st' : SolverState),
      solve env n i st = (b, st') → st.attempts ≤ st'.attempts := by
  intro n
  induction n with
  | zero =>
    intro i st b st' heq
    rw [solve] at heq
    simp only [time_time] at heq
    split at heq
    · injection heq with h1 h2
      subst h2
      exact Nat.le_succ _
    · split at heq
      · injection heq with h1 h2
        subst h2
        exact Nat.le_succ _
      · split at heq
        · injection heq with h1 h2
          subst h2
          exact Nat.le_succ _
        · injection heq with h1 h2
          subst h2
          exact Nat.le_succ _
  | succ n' ih =>
    intro i st b st' heq
    rw [solve] at heq
    simp only [time_time] at heq
    split at heq
    · injection heq with h1 h2
      subst h2
      exact Nat.le_succ _
    · split at heq
      · injection heq with h1 h2
        subst h2
        exact Nat.le_succ _
      · split at heq
        · injection heq with h1 h2
          subst h2
          exact Nat.le_succ _
        · rcases hgc : get_candidates env
              { st with attempts := st.attempts + 1, tick := st.tick + 1 }
              (env.slots.getD i default) with ⟨cands, st2⟩
          rw [hgc] at heq
          dsimp only at heq
          have hsnd := get_candidates_snd env
            { st with attempts := st.attempts + 1, tick := st.tick + 1 }
            (env.slots.getD i default)
          rw [hgc] at hsnd
          have hatt2 : st2.attempts = st.attempts + 1 := hsnd.2.2
          have h4 := try_words_attempts_mono env
            (fun st'' => solve env n' (i + 1) st'')
            (env.slots.getD i default)
            (fun s s' bb hnx => ih (i + 1) s bb s' hnx)
            cands st2 b st' heq
          omega

theorem try_words_success_budget (env : Env)
    (next : SolverState → Bool × SolverState) (slot : Slot)
    (hnext : ∀ s s', next s = (true, s') →
      s'.attempts ≤ MAX_ATTEMPTS ∧
      env.clock (s'.tick - 1) - env.start_time ≤ TIMEOUT_SECONDS) :
    ∀ (ws : List Word) (st st' : SolverState),
      try_words env next slot ws st = (true, st') →
      st'.attempts ≤ MAX_ATTEMPTS ∧
      env.clock (st'.tick - 1) - env.start_time ≤ TIMEOUT_SECONDS := by
  intro ws
  induction ws with
  | nil =>
    intro st st' heq
    rw [try_words] at heq
    injection heq with h1 h2
    exact Bool.noConfusion h1
  | cons w rest ih =>
    intro st st' heq
    simp only [try_words] at heq
    rcases hfc : forward_check env (place_word st slot w) slot with ⟨ok, st2⟩
    rw [hfc] at heq
    dsimp only at heq
    cases ok with
    | true =>
      rw [if_pos rfl] at heq
      rcases hnx : next st2 with ⟨bn, st3⟩
      rw [hnx] at heq
      cases bn with
      | true =>
        injection heq with h1 h2
        subst h2
        exact hnext st2 st3 hnx
      | false =>
        dsimp only at heq
        exact ih _ st' heq
    | false =>
      rw [if_neg (by simp)] at heq
      exact ih _ st' heq

theorem solve_success_budget (env : Env) :
    ∀ (n i : Nat) (st st' : SolverState),
      solve env n i st = (true, st') →
      st.attempts < st'.attempts ∧
      st'.attempts ≤ MAX_ATTEMPTS ∧
      env.clock (st'.tick - 1) - env.start_time ≤ TIMEOUT_SECONDS := by
  intro n
  induction n with
  | zero =>
    intro i st st' heq
    rw [solve] at heq
    simp only [time_time] at heq
    split at heq
    · injection heq with h1 h2
      exact Bool.noConfusion h1
    · next hcap =>
      split at heq
      · injection heq with h1 h2
        exact Bool.noConfusion h1
      · next htime =>
        split at heq
        · injection heq with h1 h2
          subst h2
          refine ⟨Nat.lt_succ_self _, ?_, ?_⟩
          · have hcap' : ¬ (MAX_ATTEMPTS < st.attempts + 1) := hcap
            show st.attempts + 1 ≤ MAX_ATTEMPTS
            omega
          · have h3 : st.tick + 1 - 1 = st.tick := by omega
            show env.clock (st.tick + 1 - 1) - env.start_time ≤ TIMEOUT_SECONDS
            rw [h3]
            exact le_of_not_lt htime
        · injection heq with h1 h2
          exact Bool.noConfusion h1
  | succ n' ih =>
    intro i st st' heq
    rw [solve] at heq
    simp only [time_time] at heq
    split at heq
    · injection heq with h1 h2
      exact Bool.noConfusion h1
    · next hcap =>
      split at heq
      · injection heq with h1 h2
        exact Bool.noConfusion h1
      · next htime =>
        split at heq
        · injection heq with h1 h2
          subst h2
          refine ⟨Nat.lt_succ_self _, ?_, ?_⟩
          · have hcap' : ¬ (MAX_ATTEMPTS < st.attempts + 1) := hcap
            show st.attempts + 1 ≤ MAX_ATTEMPTS
            omega
          · have h3 : st.tick + 1 - 1 = st.tick := by omega
            show env.clock (st.tick + 1 - 1) - env.start_time ≤ TIMEOUT_SECONDS
            rw [h3]
            exact le_of_not_lt htime
        · rcases hgc : get_candidates env
              { st with attempts := st.attempts + 1, tick := st.tick + 1 }
              (env.slots.getD i default) with ⟨cands, st2⟩
          rw [hgc] at heq
          dsimp only at heq
          have hsnd := get_candidates_snd env
            { st with attempts := st.attempts + 1, tick := st.tick + 1 }
            (env.slots.getD i default)
          rw [hgc] at hsnd
          have hatt2 : st2.attempts = st.attempts + 1 := hsnd.2.2
          have hmono := try_words_attempts_mono env
            (fun st'' => solve env n' (i + 1) st'')
            (env.slots.getD i default)
            (fun s s' bb hnx => solve_attempts_mono env n' (i + 1) s bb s' hnx)
            cands st2 true st' heq
          have hbud := try_words_success_budget env
            (fun st'' => solve env n' (i + 1) st'')
            (env.slots.getD i default)
            (fun s s' hnx => ((ih (i + 1) s s' hnx).2))
            cands st2 st' heq
          exact ⟨by omega, hbud⟩

/-! ## The claims about the solver -/

/-- C5 (amended): the attempt counter is never changed by placements or
removals (it is incremented exactly at entries to `solve`, which always
increase it), and whenever `solve` returns a solution the final
attempts count is at most `MAX_ATTEMPTS` and the clock reading taken at
the final recursive entry is within the timeout.  (The elapsed time
measured after `solve` returns may exceed the timeout; see the
counterexample.) -/
theorem budget_honesty :
    (∀ (st : SolverState) (slot : Slot) (w : Word),
      (place_word st slot w).attempts = st.attempts) ∧
    (∀ (env : Env) (st : SolverState) (slot : Slot) (w : Word),
      (remove_word env st slot w).attempts = st.attempts) ∧
    (∀ (env : Env) (n i : Nat) (st st' : SolverState),
      solve env n i st = (true, st') →
      st.attempts < st'.attempts ∧ st'.attempts ≤ MAX_ATTEMPTS ∧
      env.clock (st'.tick - 1) - env.start_time ≤ TIMEOUT_SECONDS) :=
  ⟨fun _ _ _ => rfl, fun _ _ _ _ => rfl,
   fun env n i st st' h => solve_success_budget env n i st st' h⟩

set_option maxHeartbeats 1000000 in
unseal Rat.add Rat.mul Rat.inv Rat.sub in
theorem budget_honesty_witness :
    (place_word st0 (env1.slots.getD 0 default) "CAT".toList).attempts =
      st0.attempts ∧
    ((solve env1 1 0 st0).2).attempts ≤ MAX_ATTEMPTS :=
  ⟨budget_honesty.1 st0 (env1.slots.getD 0 default) "CAT".toList,
   (budget_honesty.2.2 env1 1 0 st0 (solve env1 1 0 st0).2
     (Prod.ext (by decide) rfl)).2.1⟩

set_option maxHeartbeats 1000000 in
unseal Rat.add Rat.mul Rat.inv Rat.sub in
/-- Counterexample to C5 as stated: a run in which `get_solution`
returns a solution yet the elapsed time it reports — measured by a
fresh clock reading taken after `solve` returns — exceeds
`TIMEOUT_SECONDS`.  The in-solver timeout check only bounds the clock
reading taken at the last entry to `solve`, not the post-run reading
used to compute `elapsed`. -/
theorem solution_elapsed_exceeds_timeout :
    (get_solution env1 st0).1.isSome = true ∧
    TIMEOUT_SECONDS < (get_solution env1 st0).2.1 := by
  constructor
  · decide
  · decide

/-- C4 (amended): the solver is a deterministic function of the
template's slots, the dictionary, the letter index, the set-iteration
order, the random stream, and the clock stream: two runs agreeing on
all of these (not merely on the random seed) return identical
results. -/
theorem solver_determinism (e1 e2 : Env) (st : SolverState)
    (h1 : e1.slots = e2.slots)
    (h2 : e1.words_by_length = e2.words_by_length)
    (h3 : e1.letter_index = e2.letter_index)
    (h4 : e1.enum = e2.enum)
    (h5 : e1.rand = e2.rand)
    (h6 : e1.clock = e2.clock)
    (h7 : e1.start_time = e2.start_time) :
    get_solution e1 st = get_solution e2 st := by
  cases e1
  cases e2
  simp only [] at h1 h2 h3 h4 h5 h6 h7
  subst h1
  subst h2
  subst h3
  subst h4
  subst h5
  subst h6
  subst h7
  rfl

theorem solver_determinism_witness :
    get_solution env1 st0 = get_solution env1 st0 :=
  solver_determinism env1 env1 st0 rfl rfl rfl rfl rfl rfl rfl

set_option maxHeartbeats 1000000 in
unseal Rat.add Rat.mul Rat.inv Rat.sub in
/-- Counterexample to C4 as stated: two environments agreeing on the
template slots, the dictionary, the letter index, the set-iteration
order, the random stream (hence the seed), and the start time — but
with different clock streams — produce different results: one finds a
solution in 2 attempts, the other times out after 1 attempt.  The
random seed alone does not determine the outcome; wall-clock readings
do too. -/
theorem solver_clock_dependence :
    env1.slots = env1slow.slots ∧
    env1.words_by_length = env1slow.words_by_length ∧
    env1.letter_index = env1slow.letter_index ∧
    env1.enum = env1slow.enum ∧
    env1.rand = env1slow.rand ∧
    env1.start_time = env1slow.start_time ∧
    (get_solution env1 st0).1.isSome = true ∧
    (get_solution env1slow st0).1.isSome = false ∧
    (get_solution env1 st0).2.2.attempts = 2 ∧
    (get_solution env1slow st0).2.2.attempts = 1 := by
  refine ⟨rfl, rfl, rfl, rfl, rfl, rfl, ?_, ?_, ?_, ?_⟩
  · decide
  · decide
  · decide
  · decide

/-! ## The escalation controller -/

theorem run_attempts_none_iff (f : Nat → Option (Nat → Nat → Cell)) :
    ∀ l : List Nat, (run_attempts f l = none ↔ ∀ a ∈ l, f a = none) := by
  intro l
  induction l with
  | nil => simp [run_attempts]
  | cons a rest ih =>
    rw [run_attempts]
    cases hf : f a with
    | some g => simp [hf]
    | none => simp [hf, ih]

theorem run_attempts_some (f : Nat → Option (Nat → Nat → Cell)) :
    ∀ (l : List Nat) (g : Nat → Nat → Cell),
      run_attempts f l = some g → ∃ a ∈ l, f a = some g := by
  intro l
  induction l with
  | nil => intro g h; exact Option.noConfusion h
  | cons a rest ih =>
    intro g h
    rw [run_attempts] at h
    cases hf : f a with
    | some g0 =>
      rw [hf] at h
      exact ⟨a, List.mem_cons_self a rest, hf.trans h⟩
    | none =>
      rw [hf] at h
      obtain ⟨b, hb, hfb⟩ := ih g h
      exact ⟨b, List.mem_cons_of_mem a hb, hfb⟩

/-- C6: the escalation controller.  A returned puzzle carries the tier
that produced it: tier 0 with some attempt of the first batch of five
succeeding, or tier 1 with every tier-0 attempt failing and some tier-1
attempt succeeding; and the controller returns `none` exactly when all
five attempts of both tiers fail. -/
theorem escalation_controller_correct
    (f : Nat → Nat → Option (Nat → Nat → Cell)) :
    (∀ g t, generate_puzzle_escalation f = some (g, t) →
      (t = 0 ∧ ∃ a ∈ tier_attempt_numbers 5, f 0 a = some g) ∨
      (t = 1 ∧ (∀ a ∈ tier_attempt_numbers 5, f 0 a = none) ∧
        ∃ a ∈ tier_attempt_numbers 5, f 1 a = some g)) ∧
    (generate_puzzle_escalation f = none ↔
      ∀ a ∈ tier_attempt_numbers 5, f 0 a = none ∧ f 1 a = none) := by
  constructor
  · intro g t heq
    rw [generate_puzzle_escalation] at heq
    cases h0 : run_attempts (f 0) (tier_attempt_numbers 5) with
    | some g0 =>
      rw [h0] at heq
      have hpair : (g0, 0) = (g, t) := Option.some.inj heq
      have hg : g0 = g := congrArg Prod.fst hpair
      have ht : 0 = t := congrArg Prod.snd hpair
      exact Or.inl ⟨ht.symm, run_attempts_some (f 0) _ g (hg ▸ h0)⟩
    | none =>
      rw [h0] at heq
      cases h1 : run_attempts (f 1) (tier_attempt_numbers 5) with
      | some g1 =>
        rw [h1] at heq
        have hpair : (g1, 1) = (g, t) := Option.some.inj heq
        have hg : g1 = g := congrArg Prod.fst hpair
        have ht : 1 = t := congrArg Prod.snd hpair
        exact Or.inr ⟨ht.symm,
          (run_attempts_none_iff (f 0) _).mp h0,
          run_attempts_some (f 1) _ g (hg ▸ h1)⟩
      | none =>
        rw [h1] at heq
        exact Option.noConfusion heq
  · rw [generate_puzzle_escalation]
    cases h0 : run_attempts (f 0) (tier_attempt_numbers 5) with
    | some g0 =>
      constructor
      · intro h; exact Option.noConfusion h
      · intro hall
        have hn : run_attempts (f 0) (tier_attempt_numbers 5) = none :=
          (run_attempts_none_iff (f 0) _).mpr (fun a ha => (hall a ha).1)
        rw [h0] at hn
        exact Option.noConfusion hn
    | none =>
      cases h1 : run_attempts (f 1) (tier_attempt_numbers 5) with
      | some g1 =>
        constructor
        · intro h; exact Option.noConfusion h
        · intro hall
          have hn : run_attempts (f 1) (tier_attempt_numbers 5) = none :=
            (run_attempts_none_iff (f 1) _).mpr (fun a ha => (hall a ha).2)
          rw [h1] at hn
          exact Option.noConfusion hn
      | none =>
        constructor
        · intro _ a ha
          exact ⟨(run_attempts_none_iff (f 0) _).mp h0 a ha,
            (run_attempts_none_iff (f 1) _).mp h1 a ha⟩
        · intro _; rfl

theorem escalation_controller_correct_witness :
    (0 = 0 ∧ ∃ a ∈ tier_attempt_numbers 5,
      (fun (t a : Nat) => if t == 0 && a == 2
        then some (fun (_ _ : Nat) => Cell.empty) else none) 0 a =
        some (fun (_ _ : Nat) => Cell.empty)) ∨
    (0 = 1 ∧ (∀ a ∈ tier_attempt_numbers 5,
      (fun (t a : Nat) => if t == 0 && a == 2
        then some (fun (_ _ : Nat) => Cell.empty) else none) 0 a = none) ∧
      ∃ a ∈ tier_attempt_numbers 5,
        (fun (t a : Nat) => if t == 0 && a == 2
          then some (fun (_ _ : Nat) => Cell.empty) else none) 1 a =
          some (fun (_ _ : Nat) => Cell.empty)) :=
  (escalation_controller_correct
    (fun (t a : Nat) => if t == 0 && a == 2
      then some (fun (_ _ : Nat) => Cell.empty) else none)).1
    (fun (_ _ : Nat) => Cell.empty) 0 rfl

theorem letter_index_exactness_witness :
    "CAT".toList ∈
      (build_letter_index [(3, ["CAT".toList])]).buckets 3 0 'C' ∧
    ("CAT".toList ∈
        get_matching_words_fast env1 st0 (env1.slots.getD 0 default) ↔
      MatchSpec env1 st0.grid st0.used_words (env1.slots.getD 0 default)
        "CAT".toList) :=
  ⟨letter_index_exactness.1 [(3, ["CAT".toList])] (by decide) 3
     ["CAT".toList] rfl "CAT".toList (by decide) 0 'C' (by decide),
   letter_index_exactness.2 env1 st0 (env1.slots.getD 0 default)
     "CAT".toList rfl (by decide)⟩

/-! ## The stale-index code bug: claims C1, C2 and C10 fail on the real
constructor environments -/

set_option maxHeartbeats 2000000 in
unseal Rat.add Rat.mul Rat.inv Rat.sub in
/-- C2: the claimed backtracking round trip FAILS in the program.  On
the real tuesday environment, with the three down slots filled by the
solver's own placements, `CLOUT` is a candidate of the across-row-1
slot (sorted position 3) matching its current pattern `_LOU_`; placing
it and then removing it does not restore the grid: the stale triple
`(3, 3, 1)` makes the `other_slot_idx < self.slots.index(slot)` test
compare the pre-sort index 3 with the sorted position 3, so
`remove_word` clears cell `(1, 3)` even though the earlier-placed
down-col-3 slot (sorted position 2) filled it with `'U'`. -/
theorem backtrack_roundtrip_violation :
    "CLOUT".toList ∈
      get_matching_words_fast env_c2 st_pre_c2 (tuesday_slots.getD 3 default) ∧
    st_pre_c2.grid 1 3 = Cell.letter 'U' ∧
    (remove_word env_c2
      (place_word st_pre_c2 (tuesday_slots.getD 3 default) "CLOUT".toList)
      (tuesday_slots.getD 3 default) "CLOUT".toList).grid 1 3 =
      Cell.empty := by
  refine ⟨?_, ?_, ?_⟩
  · decide
  · decide
  · decide

set_option maxHeartbeats 2000000 in
unseal Rat.add Rat.mul Rat.inv Rat.sub in
/-- C1: the soundness claim's mechanism FAILS in the program.  On the
real tuesday environment with the first seven slots consistently
filled, `CAF` is the candidate of the down-col-0 slot (sorted position
7); the place-then-remove pair the candidate loop performs on a
rejected candidate leaves a state in which `ABCDE` is still recorded as
placed (it is in the used-word set) while the grid along its slot
(across-row-2, sorted position 4) reads `_BCDE`: the stale triples
`(7, 1, 0)` and `(8, 2, 0)` make `remove_word` clear cells `(2, 0)` and
`(3, 0)` of the earlier-placed across-row-2 and across-row-3 slots.
`CQZ` then matches the corrupted pattern `C__`, and placing it rewrites
cell `(2, 0)` with `'Q'`, after which the across-row-2 slot reads
`QBCDE` — a string that is in no dictionary list and is never
re-validated, so a later solver success returns it inside the grid. -/
theorem stale_removal_corrupts_validated_slot :
    "CAF".toList ∈
      get_matching_words_fast env_c1 st_c1 (tuesday_slots.getD 7 default) ∧
    "ABCDE".toList ∈ st_c1rm.used_words ∧
    grid_pattern st_c1rm.grid (tuesday_slots.getD 4 default) =
      ['_', 'B', 'C', 'D', 'E'] ∧
    "CQZ".toList ∈
      get_matching_words_fast env_c1 st_c1rm (tuesday_slots.getD 7 default) ∧
    grid_pattern
      (place_word st_c1rm (tuesday_slots.getD 7 default) "CQZ".toList).grid
      (tuesday_slots.getD 4 default) = "QBCDE".toList ∧
    "QBCDE".toList ∉ (env_c1.words_by_length.lookup 5).getD [] := by
  refine ⟨?_, ?_, ?_, ?_, ?_, ?_⟩
  · decide
  · decide
  · decide
  · decide
  · decide
  · decide

set_option maxHeartbeats 4000000 in
unseal Rat.add Rat.mul Rat.inv Rat.sub in
/-- C10: failure atomicity FAILS in the program.  A complete top-level
run on the real tuesday environment (slots as the constructor builds
them, dictionary `{AABBC, DBEFG, CAT}`) returns failure, yet the final
grid is not the initial post-construction grid: cell `(0, 2)` still
holds the `'D'` of the backtracked word `DBEFG`, because the stale
triple `(0, 0, 1)` of the down-col-2 slot (sorted position 1) passes
the `other_slot_idx < self.slots.index(slot)` test — pre-sort index 0
against sorted position 1 — and preserves the cell although its true
sharer, the across-row-0 slot, sits at sorted position 6 and was never
placed. -/
theorem failed_solve_leaves_letters :
    ((get_solution env_c10 (initial_state "tuesday")).1).isSome = false ∧
    ((get_solution env_c10 (initial_state "tuesday")).2.2).grid 0 2 =
      Cell.letter 'D' ∧
    (initial_state "tuesday").grid 0 2 = Cell.empty := by
  refine ⟨?_, ?_, ?_⟩
  · decide
  · decide
  · decide
